import Mathlib

/-!
Verification of the Resource Utilization Calculator (RUC) of the
model-optimization repository, a shallow embedding of
`model_compression_toolkit/core/common/mixed_precision/resource_utilization_tools/resource_utilization_calculator.py`.

Machine floats in the source only ever hold exact values of the form
`size * nbits / 8` with natural `size` and `nbits`, so byte counts are
embedded as rationals (`ℚ`).  Python exceptions (ValueError,
NotImplementedError, AssertionError, KeyError) are embedded as
`Except RUErr`.
-/

namespace RUC

/-- `FLOAT_BITWIDTH` from `model_compression_toolkit/constants.py`. -/
def FLOAT_BITWIDTH : ℕ := 32

/-- `BitwidthMode` enum from the calculator source. -/
inductive BitwidthMode where
  | Float | Q8Bit | QMaxBit | QMinBit | QCustom | QDefaultSP
deriving DecidableEq, Repr

/-- `TargetInclusionCriterion` enum from the calculator source. -/
inductive TargetInclusionCriterion where
  | QConfigurable | QNonConfigurable | AnyQuantized | Any
deriving DecidableEq, Repr

/-- Modelled from the spec: `RUTarget ∈ {Weights, Activation, Total, BOPS}`
(the enum lives in `resource_utilization.py`, which is not under `src/`). -/
inductive RUTarget where
  | Weights | Activation | Total | BOPS
deriving DecidableEq, Repr

/-- Error kinds of the calculator.  Each constructor corresponds to one
raise/assert site of the source (or of the spec-modelled collaborators). -/
inductive RUErr where
  | unexpectedCustomCfg   -- ValueError: custom quantization cfg for non-custom bit mode
  | unusedWCfg            -- ValueError: weight cfg passed but no relevant ru_targets
  | unusedActCfg          -- ValueError: activation cfg passed but no relevant ru_targets
  | unknownAttribute      -- ValueError: custom cfg contains unexpected weight attrs
  | emptyAttrList         -- ValueError: explicit attribute list is empty
  | ambiguousDefault      -- ValueError: node does not have exactly one unique candidate
  | notSupported          -- NotImplementedError: BOPS for non-quantized criterion
  | multiKernel           -- NotImplementedError: multiple kernel attributes
  | assertionFailed       -- python assert failure
  | topoMismatch          -- ValueError: could not topo-sort
  | emptyList             -- ValueError from python max()/min() on an empty sequence
  | keyError              -- python KeyError / IndexError
  | internal              -- unreachable state
deriving DecidableEq, Repr

/-- Association-list lookup (python `dict.get` / `dict[k]`, first match). -/
def alookup {α β : Type} [DecidableEq α] : List (α × β) → α → Option β
  | [], _ => none
  | (k, v) :: rest, a => if k = a then some v else alookup rest a

/-- A bit-width configuration: `(n_bits, quantization enabled)`.
Modelled from the spec data model (§3 `CandidateConfig`): used both for the
activation part of a candidate and for one weight attribute of a candidate,
and also as the node-level custom configs (`NodeActivationQuantizationConfig`
fields `activation_n_bits`/`enable_activation_quantization` and the per-attr
entries of `NodeWeightsQuantizationConfig`). -/
structure QCfg where
  nbits : ℕ
  enabled : Bool
deriving DecidableEq, Repr

/-- Modelled from the spec (§3): one quantization candidate of a node, with an
activation `(n_bits, enabled)` pair and per-weight-attribute
`(n_bits, enabled)` pairs. -/
structure CandidateCfg where
  activation : QCfg
  weights : List (String × QCfg)
deriving DecidableEq, Repr

/-- Modelled from the spec (§3 Node): `base_node.py` is not under `src/`.
`weights` maps each weight-attribute full name to its element count
(the source caches these as `_params_cnt`); `outputSize` is
`get_total_output_params()`. -/
structure BaseNode where
  name : String
  typ : String
  outputSize : ℕ
  weights : List (String × ℕ)
  candidates : List CandidateCfg
  reuse : Bool
  reuseGroup : String
deriving DecidableEq, Repr

/-- Custom per-node weights quantization config (`NodeWeightsQuantizationConfig`):
a map from weight-attribute names to `(n_bits, enabled)`. -/
def NodeWQC : Type := List (String × QCfg)

instance : DecidableEq NodeWQC := by unfold NodeWQC; infer_instance

/-- `get_node_weights_attributes`: the node's weight attribute names. -/
def BaseNode.weightAttrs (n : BaseNode) : List String := n.weights.map Prod.fst

/-- Worker for `dedupBy`: drop elements whose key `f x` was already seen. -/
def dedupByGo {α β : Type} [DecidableEq β] (f : α → β) : List β → List α → List α
  | _, [] => []
  | seen, x :: xs =>
      if f x ∈ seen then dedupByGo f seen xs
      else x :: dedupByGo f (f x :: seen) xs

/-- Keep the first element for every distinct key `f x` (used to model the
`get_unique_*_candidates` accessors, which deduplicate candidates, and the
key-deduplication python dicts perform). -/
def dedupBy {α β : Type} [DecidableEq β] (f : α → β) (l : List α) : List α :=
  dedupByGo f [] l

/-- Modelled from the spec (§6 `get_unique_activation_candidates`):
candidates deduplicated by their activation configuration. -/
def BaseNode.get_unique_activation_candidates (n : BaseNode) : List CandidateCfg :=
  dedupBy (fun c => c.activation) n.candidates

/-- Modelled from the spec (§6 `get_unique_weights_candidates(attr)`):
candidates deduplicated by their configuration for the given weight attribute. -/
def BaseNode.get_unique_weights_candidates (n : BaseNode) (attr : String) : List CandidateCfg :=
  dedupBy (fun c => alookup c.weights attr) n.candidates

/-- Modelled from the spec (§6 `is_activation_quantization_enabled`): whether
activation quantization is enabled, read off the node's (first) candidate. -/
def BaseNode.is_activation_quantization_enabled (n : BaseNode) : Bool :=
  match n.candidates with
  | [] => false
  | c :: _ => c.activation.enabled

/-- Modelled from the spec (§6 `is_weights_quantization_enabled(attr)`): whether
quantization of the given weight attribute is enabled, read off the node's
(first) candidate. -/
def BaseNode.is_weights_quantization_enabled (n : BaseNode) (attr : String) : Bool :=
  match n.candidates with
  | [] => false
  | c :: _ => ((alookup c.weights attr).map QCfg.enabled).getD false

/-- Modelled from the spec (§6 `has_configurable_activation`, glossary
"configurable = more than one candidate"): activation quantization is enabled
and there is more than one unique activation candidate. -/
def BaseNode.has_configurable_activation (n : BaseNode) : Bool :=
  n.is_activation_quantization_enabled && decide (1 < n.get_unique_activation_candidates.length)

/-- Modelled from the spec (§6 `is_configurable_weight(attr)`, §3 invariant
"is_configurable ⇒ more than one candidate"): quantization of the attribute is
enabled and it has more than one unique candidate. -/
def BaseNode.is_configurable_weight (n : BaseNode) (attr : String) : Bool :=
  n.is_weights_quantization_enabled attr
    && decide (1 < (n.get_unique_weights_candidates attr).length)

/-- `max` of a python sequence: fails on an empty one. -/
def maxList (l : List ℕ) : Except RUErr ℕ :=
  match l with
  | [] => .error .emptyList
  | x :: xs => .ok (xs.foldl max x)

/-- `min` of a python sequence: fails on an empty one. -/
def minList (l : List ℕ) : Except RUErr ℕ :=
  match l with
  | [] => .error .emptyList
  | x :: xs => .ok (xs.foldl min x)

/-- Decidable equality of `Except` results (used to evaluate the embedding on
concrete inputs). -/
instance {e a : Type} [DecidableEq e] [DecidableEq a] : DecidableEq (Except e a) := fun x y =>
  match x, y with
  | .ok u, .ok v =>
      if h : u = v then isTrue (by rw [h]) else isFalse (fun hc => by cases hc; exact h rfl)
  | .error u, .error v =>
      if h : u = v then isTrue (by rw [h]) else isFalse (fun hc => by cases hc; exact h rfl)
  | .ok _, .error _ => isFalse (fun hc => by cases hc)
  | .error _, .ok _ => isFalse (fun hc => by cases hc)

/-- Effectful map over a list, stopping at the first error (the python loops
and comprehensions of the source). -/
def mapE {a b : Type} (f : a → Except RUErr b) : List a → Except RUErr (List b)
  | [] => .ok []
  | x :: xs => do
      let y ← f x
      let ys ← mapE f xs
      .ok (y :: ys)

/-- `candidate.weights_quantization_cfg.get_attr_config(attr)`: the candidate's
configuration for one weight attribute; raises (KeyError-like) when absent. -/
def get_attr_config (c : CandidateCfg) (attr : String) : Except RUErr QCfg :=
  match alookup c.weights attr with
  | some cfg => .ok cfg
  | none => .error .keyError

/-- `ResourceUtilizationCalculator._get_activation_nbits`. -/
def get_activation_nbits (n : BaseNode) (mode : BitwidthMode) (act_qc : Option QCfg) :
    Except RUErr ℕ :=
  match act_qc with
  | some qc =>
      -- assert bitwidth_mode == BitwidthMode.QCustom
      if mode ≠ BitwidthMode.QCustom then .error .assertionFailed
      else .ok (if qc.enabled then qc.nbits else FLOAT_BITWIDTH)
  | none =>
      if mode = BitwidthMode.Float ∨ ¬ n.is_activation_quantization_enabled then
        .ok FLOAT_BITWIDTH
      else if mode = BitwidthMode.Q8Bit then .ok 8
      else if mode = BitwidthMode.QMaxBit then
        maxList (n.candidates.map (fun c => c.activation.nbits))
      else if mode = BitwidthMode.QMinBit then
        minList (n.candidates.map (fun c => c.activation.nbits))
      else
        -- remaining modes: QCustom, QDefaultSP
        match n.get_unique_activation_candidates with
        | [c] => .ok c.activation.nbits
        | _ => .error .ambiguousDefault

/-- `ResourceUtilizationCalculator._get_weight_nbits`. -/
def get_weight_nbits (n : BaseNode) (w_attr : String) (mode : BitwidthMode)
    (w_qc : Option NodeWQC) : Except RUErr ℕ :=
  -- assert not (w_qc and bitwidth_mode != BitwidthMode.QCustom)
  if w_qc.isSome ∧ mode ≠ BitwidthMode.QCustom then .error .assertionFailed
  else
    match w_qc.bind (fun qc => alookup qc w_attr) with
    | some cfg => .ok (if cfg.enabled then cfg.nbits else FLOAT_BITWIDTH)
    | none =>
      if mode = BitwidthMode.Float ∨ ¬ n.is_weights_quantization_enabled w_attr then
        .ok FLOAT_BITWIDTH
      else if mode = BitwidthMode.Q8Bit then .ok 8
      else do
        let w_qcs ← mapE (fun c => get_attr_config c w_attr)
          (n.get_unique_weights_candidates w_attr)
        if mode = BitwidthMode.QMaxBit then maxList (w_qcs.map QCfg.nbits)
        else if mode = BitwidthMode.QMinBit then minList (w_qcs.map QCfg.nbits)
        else
          -- remaining modes: QCustom, QDefaultSP
          match w_qcs with
          | [cfg] => Except.ok cfg.nbits
          | _ => Except.error RUErr.ambiguousDefault

/-- A data edge of the graph (spec §3): source/sink nodes with port indices. -/
structure Edge where
  source : BaseNode
  sourcePort : ℕ
  sink : BaseNode
  sinkPort : ℕ
deriving DecidableEq, Repr

/-- The graph borrowed by the calculator.  `nodes` doubles as
`get_topo_sorted_nodes()` (the importer supplies nodes in topological order,
spec §6).  `cuts` is the output of the Max-Cut Engine
(`compute_graph_max_cut` over the `MemoryGraph`, spec §4.4, not under `src/`):
each cut is the list of nodes its memory elements resolve to (the calculator
caches exactly this resolution in `self._cuts`). -/
structure Graph where
  nodes : List BaseNode
  edges : List Edge
  cuts : List (List BaseNode)

/-- Modelled from the spec (§6): the framework-implementation collaborator,
providing `get_kernel_op_attributes(op_type)` (from `fw_info`) and
`get_node_mac_operations(node)` (from `fw_impl`). -/
structure Framework where
  kernel_op_attrs : String → List String
  mac : BaseNode → ℕ

/-- Modelled from the spec (§4.5(a), §9 "positional weights"):
`BaseNode.has_kernel_weight_to_quantize(fw_info)` — the node carries a kernel
weight attribute (the kernel-attribute names of its op type intersect its own
weight attributes). -/
def has_kernel_weight_to_quantize (fw : Framework) (n : BaseNode) : Bool :=
  (fw.kernel_op_attrs n.typ).any (fun a => decide (a ∈ n.weightAttrs))

/-- `graph.incoming_edges(n, sort_by_attr=EDGE_SINK_INDEX)`.  The sink-port
sort is omitted: the calculator only ever inspects lists of length ≤ 1, for
which the order is irrelevant. -/
def incoming_edges (g : Graph) (n : BaseNode) : List Edge :=
  g.edges.filter (fun e => decide (e.sink = n))

/-- The `Utilization` named tuple of the source. -/
structure Utilization where
  size : ℕ
  bytes : ℚ
deriving DecidableEq, Repr

/-- `Utilization.__add__`. -/
def Utilization.add (a b : Utilization) : Utilization :=
  ⟨a.size + b.size, a.bytes + b.bytes⟩

/-- python `sum` over `Utilization` values, with `Utilization(0, 0)` for an
empty collection (the source guards empties explicitly; `__radd__ 0` makes
`sum` total). -/
def sumUtil (l : List Utilization) : Utilization :=
  l.foldr Utilization.add ⟨0, 0⟩

/-- python `max` over `Utilization` values, which compares by `bytes`
(`__gt__`); fails on an empty collection. -/
def maxUtilList (l : List Utilization) : Except RUErr Utilization :=
  match l with
  | [] => .error .emptyList
  | x :: xs => .ok (xs.foldl (fun acc u => if acc.bytes < u.bytes then u else acc) x)

/-- `ResourceUtilizationCalculator._get_target_weight_attrs`. -/
def target_weight_attrs (n : BaseNode) (crit : TargetInclusionCriterion) : List String :=
  let weight_attrs := n.weightAttrs
  match crit with
  | .QConfigurable => weight_attrs.filter (fun a => n.is_configurable_weight a)
  | .AnyQuantized => weight_attrs.filter (fun a => n.is_weights_quantization_enabled a)
  | .QNonConfigurable =>
      let quantized := weight_attrs.filter (fun a => n.is_weights_quantization_enabled a)
      let configurable := weight_attrs.filter (fun a => n.is_configurable_weight a)
      quantized.filter (fun a => decide (a ∉ configurable))
  | .Any => weight_attrs

/-- `ResourceUtilizationCalculator._get_target_activation_nodes` (the body
that filters an explicit node list; the graph-level call sites pass
`graph.nodes`). -/
def target_activation_nodes (crit : TargetInclusionCriterion) (include_reused : Bool)
    (nodes : List BaseNode) : List BaseNode :=
  let nodes := match crit with
    | .QConfigurable => nodes.filter (fun n => n.has_configurable_activation)
    | .AnyQuantized => nodes.filter (fun n => n.is_activation_quantization_enabled)
    | .QNonConfigurable =>
        nodes.filter (fun n => n.is_activation_quantization_enabled && !n.has_configurable_activation)
    | .Any => nodes
  if include_reused then nodes else nodes.filter (fun n => !n.reuse)

/-- `ResourceUtilizationCalculator._collect_target_nodes_w_attrs`. -/
def collect_target_nodes_w_attrs (g : Graph) (crit : TargetInclusionCriterion)
    (include_reused : Bool) : List (BaseNode × List String) :=
  g.nodes.filterMap (fun n =>
    if !(target_weight_attrs n crit).isEmpty && (include_reused || !n.reuse) then
      some (n, target_weight_attrs n crit)
    else none)

/-- `ResourceUtilizationCalculator._topo_sort`. -/
def topo_sort (g : Graph) (nodes : List BaseNode) : Except RUErr (List BaseNode) :=
  if nodes.isEmpty then .ok nodes
  else
    let topo_nodes := g.nodes.filter (fun n => decide (n ∈ nodes))
    if topo_nodes.length = nodes.length then .ok topo_nodes
    else .error .topoMismatch

/-- The `Union[TargetInclusionCriterion, List[str]]` second argument of
`compute_node_weights_utilization`. -/
inductive WSpec where
  | crit (c : TargetInclusionCriterion)
  | attrs (l : List String)
deriving DecidableEq, Repr

/-- The custom-config validation at the head of
`compute_node_weights_utilization`: reject a config with a non-custom mode,
and a config naming weight attributes the node does not carry. -/
def check_w_qc (n : BaseNode) (mode : BitwidthMode) (qc : Option NodeWQC) :
    Except RUErr Unit :=
  match qc with
  | some q =>
      if mode ≠ BitwidthMode.QCustom then .error .unexpectedCustomCfg
      else if (q.map Prod.fst).any (fun a => decide (a ∉ n.weightAttrs)) then
        .error .unknownAttribute
      else .ok ()
  | none => .ok ()

/-- Resolution of the `Union[TargetInclusionCriterion, List[str]]` argument of
`compute_node_weights_utilization`: an explicit attribute list must be
non-empty. -/
def resolve_weight_attrs (n : BaseNode) (spec : WSpec) : Except RUErr (List String) :=
  match spec with
  | WSpec.crit c => .ok (target_weight_attrs n c)
  | WSpec.attrs l => if l.isEmpty then .error .emptyAttrList else .ok l

/-- One iteration of the attribute loop of `compute_node_weights_utilization`:
`bytes = element_count * nbits / 8`. -/
def node_weight_attr_util (n : BaseNode) (mode : BitwidthMode) (qc : Option NodeWQC)
    (attr : String) : Except RUErr (String × Utilization) :=
  match alookup n.weights attr with
  | none => .error .keyError
  | some size =>
      (get_weight_nbits n attr mode qc).bind (fun nbits =>
        .ok (attr, Utilization.mk size ((size : ℚ) * nbits / 8)))

/-- `ResourceUtilizationCalculator.compute_node_weights_utilization`. -/
def compute_node_weights_utilization (n : BaseNode) (spec : WSpec) (mode : BitwidthMode)
    (qc : Option NodeWQC) : Except RUErr (Utilization × List (String × Utilization)) :=
  (check_w_qc n mode qc).bind (fun _ =>
    (resolve_weight_attrs n spec).bind (fun weight_attrs =>
      (mapE (node_weight_attr_util n mode qc) weight_attrs).bind (fun attr_util =>
        .ok (sumUtil (attr_util.map Prod.snd), attr_util))))

/-- One iteration of the node loop of `compute_weights_utilization`:
look up the node's collected attributes and compute its utilization. -/
def node_weights_entry (node_attrs : List (BaseNode × List String)) (mode : BitwidthMode)
    (w_qcs : List (BaseNode × NodeWQC)) (n : BaseNode) :
    Except RUErr (BaseNode × (Utilization × List (String × Utilization))) :=
  match alookup node_attrs n with
  | none => .error .internal
  | some attrs =>
      (compute_node_weights_utilization n (WSpec.attrs attrs) mode (alookup w_qcs n)).bind
        (fun r => .ok (n, r))

/-- `ResourceUtilizationCalculator.compute_weights_utilization`. -/
def compute_weights_utilization (g : Graph) (crit : TargetInclusionCriterion)
    (mode : BitwidthMode) (w_qcs : List (BaseNode × NodeWQC)) :
    Except RUErr (ℚ × List (BaseNode × Utilization) × List (BaseNode × List (String × Utilization))) :=
  if ¬ w_qcs.isEmpty ∧ mode ≠ BitwidthMode.QCustom then .error .unexpectedCustomCfg
  else
    (topo_sort g ((collect_target_nodes_w_attrs g crit false).map Prod.fst)).bind (fun topo =>
      (mapE (node_weights_entry (collect_target_nodes_w_attrs g crit false) mode w_qcs)
          topo).bind (fun per_node =>
        .ok ((sumUtil (per_node.map (fun x => x.2.1))).bytes,
          per_node.map (fun x => (x.1, x.2.1)),
          per_node.map (fun x => (x.1, x.2.2)))))

/-- The target-criterion recheck of
`compute_node_activation_tensor_utilization`: with a criterion supplied, a
node not matching it is skipped (`include_reused=true`, singleton list). -/
def skip_by_criterion (crit : Option TargetInclusionCriterion) (n : BaseNode) : Bool :=
  match crit with
  | some c => (target_activation_nodes c true [n]).isEmpty
  | none => false

/-- `ResourceUtilizationCalculator.compute_node_activation_tensor_utilization`. -/
def compute_node_activation_tensor_utilization (n : BaseNode)
    (crit : Option TargetInclusionCriterion) (mode : BitwidthMode) (qc : Option QCfg) :
    Except RUErr Utilization :=
  if qc.isSome ∧ mode ≠ BitwidthMode.QCustom then .error .unexpectedCustomCfg
  else if skip_by_criterion crit n then .ok (Utilization.mk 0 0)
  else
    (get_activation_nbits n mode qc).bind (fun nbits =>
      .ok (Utilization.mk n.outputSize ((n.outputSize : ℚ) * nbits / 8)))

/-- One iteration of the cut loop of `compute_activation_utilization_by_cut`:
the cut's target nodes (deduplicated, as the per-node python dict keys are)
with their utilizations, or `none` for a cut that is skipped. -/
def process_cut (crit : TargetInclusionCriterion) (mode : BitwidthMode)
    (act_qcs : List (BaseNode × QCfg)) (cut : List BaseNode) :
    Except RUErr (Option (List BaseNode × Utilization × List (BaseNode × Utilization))) :=
  let cut_target_nodes := dedupBy (fun n => n) (target_activation_nodes crit true cut)
  if cut_target_nodes.isEmpty then .ok none
  else
    (mapE (fun n =>
        (compute_node_activation_tensor_utilization n (some crit) mode (alookup act_qcs n)).bind
          (fun u => .ok (n, u))) cut_target_nodes).bind
      (fun per_node => .ok (some (cut, sumUtil (per_node.map Prod.snd), per_node)))

/-- `ResourceUtilizationCalculator.compute_activation_utilization_by_cut`.
The `cuts` property filters out cuts with no memory elements before the loop. -/
def compute_activation_utilization_by_cut (g : Graph) (crit : TargetInclusionCriterion)
    (mode : BitwidthMode) (act_qcs : List (BaseNode × QCfg)) :
    Except RUErr (ℚ × List (List BaseNode × Utilization)
                    × List (List BaseNode × List (BaseNode × Utilization))) :=
  if ¬ act_qcs.isEmpty ∧ mode ≠ BitwidthMode.QCustom then .error .unexpectedCustomCfg
  else if (target_activation_nodes crit true g.nodes).isEmpty then .ok (0, [], [])
  else
    (mapE (process_cut crit mode act_qcs) (g.cuts.filter (fun c => !c.isEmpty))).bind
      (fun entries =>
        let included := entries.filterMap id
        let util_per_cut := included.map (fun e => (e.1, e.2.1))
        (maxUtilList (util_per_cut.map Prod.snd)).bind (fun total =>
          .ok (total.bytes, util_per_cut, included.map (fun e => (e.1, e.2.2)))))

/-- `ResourceUtilizationCalculator.compute_activations_utilization`. -/
def compute_activations_utilization (g : Graph) (crit : TargetInclusionCriterion)
    (mode : BitwidthMode) (act_qcs : List (BaseNode × QCfg)) : Except RUErr ℚ :=
  (compute_activation_utilization_by_cut g crit mode act_qcs).bind (fun r => .ok r.1)

/-- `ResourceUtilizationCalculator.compute_node_bops`.  A node with zero MACs
contributes zero; with no incoming edges it contributes zero; more than one
incoming edge fails the assert; otherwise
`BOPS = a_nbits * w_nbits * mac` with the activation bits of the single
edge's source node and the bits of the (unique) kernel attribute. -/
def compute_node_bops (g : Graph) (fw : Framework) (n : BaseNode) (mode : BitwidthMode)
    (act_qcs : List (BaseNode × QCfg)) (w_qc : Option NodeWQC) : Except RUErr ℕ :=
  if fw.mac n = 0 then .ok 0
  else
    match incoming_edges g n with
    | [] => .ok 0
    | [e] =>
        (get_activation_nbits e.source mode (alookup act_qcs e.source)).bind (fun a_nbits =>
          if (fw.kernel_op_attrs n.typ).length > 1 then .error .multiKernel
          else
            match fw.kernel_op_attrs n.typ with
            | [] => .error .keyError
            | ka :: _ =>
                (get_weight_nbits n ka mode w_qc).bind (fun w_nbits =>
                  .ok (a_nbits * w_nbits * fw.mac n)))
    | _ => .error .assertionFailed

/-- One iteration of the node loop of `compute_bops`. -/
def node_bops_entry (g : Graph) (fw : Framework) (mode : BitwidthMode)
    (act_qcs : List (BaseNode × QCfg)) (w_qcs : List (BaseNode × NodeWQC)) (n : BaseNode) :
    Except RUErr (BaseNode × ℕ) :=
  (compute_node_bops g fw n mode act_qcs (alookup w_qcs n)).bind (fun b => .ok (n, b))

/-- `ResourceUtilizationCalculator.compute_bops`. -/
def compute_bops (g : Graph) (fw : Framework) (crit : TargetInclusionCriterion)
    (mode : BitwidthMode) (act_qcs : List (BaseNode × QCfg)) (w_qcs : List (BaseNode × NodeWQC)) :
    Except RUErr (ℕ × List (BaseNode × ℕ)) :=
  if crit ≠ TargetInclusionCriterion.AnyQuantized then .error .notSupported
  else
    (mapE (node_bops_entry g fw mode act_qcs w_qcs)
        (((collect_target_nodes_w_attrs g crit true).map Prod.fst).filter
          (fun n => has_kernel_weight_to_quantize fw n))).bind (fun nodes_bops =>
      .ok ((nodes_bops.map Prod.snd).sum, nodes_bops))

/-- Modelled from the spec (§3, §6): the `ResourceUtilization` record
(`resource_utilization.py` is not under `src/`) — four optional metrics. -/
structure ResourceUtilization where
  weights_memory : Option ℚ := none
  activation_memory : Option ℚ := none
  total_memory : Option ℚ := none
  bops : Option ℕ := none
deriving DecidableEq, Repr

/-- Modelled from the spec (§6): `get_restricted_targets()` returns the
populated subset of the four metrics. -/
def ResourceUtilization.get_restricted_targets (ru : ResourceUtilization) : List RUTarget :=
  (if ru.weights_memory.isSome then [RUTarget.Weights] else [])
    ++ (if ru.activation_memory.isSome then [RUTarget.Activation] else [])
    ++ (if ru.total_memory.isSome then [RUTarget.Total] else [])
    ++ (if ru.bops.isSome then [RUTarget.BOPS] else [])

/-- All members of `RUTarget` (python `set(RUTarget)`). -/
def allRUTargets : List RUTarget := [.Weights, .Activation, .Total, .BOPS]

/-- Equality of two target lists as sets. -/
def sameTargetSet (a b : List RUTarget) : Bool :=
  allRUTargets.all (fun t => a.contains t == b.contains t)

/-- The final population-assertion of `compute_resource_utilization`: the
record must populate exactly the requested targets. -/
def finalize_ru (ru : ResourceUtilization) (ts : List RUTarget) :
    Except RUErr ResourceUtilization :=
  if ¬ sameTargetSet ru.get_restricted_targets ts then .error .assertionFailed
  else .ok ru

/-- The metric-computation tail of `compute_resource_utilization` (everything
after the custom-configuration validation, operating on the possibly-dropped
configs). -/
def compute_ru_core (g : Graph) (fw : Framework) (crit : TargetInclusionCriterion)
    (mode : BitwidthMode) (act_qcs : List (BaseNode × QCfg))
    (w_qcs : List (BaseNode × NodeWQC)) (ru_targets : List RUTarget) :
    Except RUErr ResourceUtilization :=
  (if ru_targets.any (fun t => t == RUTarget.Weights || t == RUTarget.Total) then
      (compute_weights_utilization g crit mode w_qcs).bind (fun r => .ok (some r.1))
    else .ok none).bind (fun w_total =>
  (if ru_targets.any (fun t => t == RUTarget.Activation || t == RUTarget.Total) then
      (compute_activations_utilization g crit mode act_qcs).bind (fun r => .ok (some r))
    else .ok none).bind (fun a_total =>
  (if ru_targets.contains RUTarget.BOPS then
      (compute_bops g fw crit mode act_qcs w_qcs).bind (fun r => .ok (some r.1))
    else .ok none).bind (fun bops_val =>
  (if ru_targets.contains RUTarget.Total then
      match w_total, a_total with
      | some w, some a => Except.ok (some (w + a))
      | _, _ => (Except.error RUErr.internal : Except RUErr (Option ℚ))
    else Except.ok none).bind (fun total_val =>
  finalize_ru
    { weights_memory := if ru_targets.contains RUTarget.Weights then w_total else none
      activation_memory := if ru_targets.contains RUTarget.Activation then a_total else none
      total_memory := total_val
      bops := bops_val } ru_targets))))

/-- Normalization of the `ru_targets` argument: python
`set(ru_targets) if ru_targets else set(RUTarget)` — `None` and an empty
collection both mean all targets. -/
def norm_targets (ts0 : Option (List RUTarget)) : List RUTarget :=
  match ts0 with
  | none => allRUTargets
  | some l => if l.isEmpty then allRUTargets else l

/-- The weight custom config is unused: supplied, but none of
{Weights, Total, BOPS} is requested. -/
def w_unused_cond (w_qcs : List (BaseNode × NodeWQC)) (ts : List RUTarget) : Bool :=
  !w_qcs.isEmpty
    && !(ts.any (fun t => t == RUTarget.Weights || t == RUTarget.Total || t == RUTarget.BOPS))

/-- The activation custom config is unused: supplied, but none of
{Activation, Total, BOPS} is requested. -/
def act_unused_cond (act_qcs : List (BaseNode × QCfg)) (ts : List RUTarget) : Bool :=
  !act_qcs.isEmpty
    && !(ts.any (fun t =>
          t == RUTarget.Activation || t == RUTarget.Total || t == RUTarget.BOPS))

/-- `compute_resource_utilization` after target normalization: the validation
checks on custom configs, the silent dropping of unused configs, and the
metric computation. -/
def compute_ru_checked (g : Graph) (fw : Framework) (crit : TargetInclusionCriterion)
    (mode : BitwidthMode) (act_qcs : List (BaseNode × QCfg))
    (w_qcs : List (BaseNode × NodeWQC)) (ts : List RUTarget) (allow_unused_qcs : Bool) :
    Except RUErr ResourceUtilization :=
  if (¬ w_qcs.isEmpty ∨ ¬ act_qcs.isEmpty) ∧ mode ≠ BitwidthMode.QCustom then
    .error .unexpectedCustomCfg
  else if w_unused_cond w_qcs ts && !allow_unused_qcs then .error .unusedWCfg
  else if act_unused_cond act_qcs ts && !allow_unused_qcs then .error .unusedActCfg
  else
    compute_ru_core g fw crit mode
      (if act_unused_cond act_qcs ts then [] else act_qcs)
      (if w_unused_cond w_qcs ts then [] else w_qcs) ts

/-- `ResourceUtilizationCalculator.compute_resource_utilization`. -/
def compute_resource_utilization (g : Graph) (fw : Framework)
    (crit : TargetInclusionCriterion) (mode : BitwidthMode)
    (act_qcs : List (BaseNode × QCfg)) (w_qcs : List (BaseNode × NodeWQC))
    (ru_targets0 : Option (List RUTarget)) (allow_unused_qcs : Bool) :
    Except RUErr ResourceUtilization :=
  compute_ru_checked g fw crit mode act_qcs w_qcs (norm_targets ru_targets0) allow_unused_qcs

/-! ### Spec-side bit-width resolution (for claim C2) -/

/-- A transcription of the spec's **activation** bit-width resolution order
(spec §4.1, steps 1–5), for comparison against `get_activation_nbits`:
custom config first (mode must be QCustom; disabled → 32), then Float/disabled
→ 32, Q8Bit → 8, QMaxBit/QMinBit → max/min of `n_bits` over all candidates,
else the single unique activation candidate (fail otherwise). -/
def activation_nbits_spec (n : BaseNode) (mode : BitwidthMode) (act_qc : Option QCfg) :
    Except RUErr ℕ :=
  match act_qc with
  | some qc =>
      if mode ≠ BitwidthMode.QCustom then .error .assertionFailed
      else if qc.enabled = false then .ok 32
      else .ok qc.nbits
  | none =>
      if mode = BitwidthMode.Float ∨ n.is_activation_quantization_enabled = false then .ok 32
      else if mode = BitwidthMode.Q8Bit then .ok 8
      else if mode = BitwidthMode.QMaxBit then
        maxList (n.candidates.map (fun c => c.activation.nbits))
      else if mode = BitwidthMode.QMinBit then
        minList (n.candidates.map (fun c => c.activation.nbits))
      else
        match n.get_unique_activation_candidates with
        | [c] => .ok c.activation.nbits
        | _ => .error .ambiguousDefault

/-- A transcription of the spec's **weight** bit-width resolution order
(spec §4.1, "identical except step 1 looks up the attribute within the node's
custom weight config, and step 5 operates on unique candidates restricted to
the named weight attribute"), for comparison against `get_weight_nbits`.
Steps 4 (max/min) range over all candidates, restricted to the attribute. -/
def weight_nbits_spec (n : BaseNode) (w_attr : String) (mode : BitwidthMode)
    (w_qc : Option NodeWQC) : Except RUErr ℕ :=
  if w_qc.isSome ∧ mode ≠ BitwidthMode.QCustom then .error .assertionFailed
  else
    match w_qc.bind (fun qc => alookup qc w_attr) with
    | some cfg => if cfg.enabled = false then .ok 32 else .ok cfg.nbits
    | none =>
      if mode = BitwidthMode.Float ∨ n.is_weights_quantization_enabled w_attr = false then .ok 32
      else if mode = BitwidthMode.Q8Bit then .ok 8
      else if mode = BitwidthMode.QMaxBit then do
        let cfgs ← mapE (fun c => get_attr_config c w_attr) n.candidates
        maxList (cfgs.map QCfg.nbits)
      else if mode = BitwidthMode.QMinBit then do
        let cfgs ← mapE (fun c => get_attr_config c w_attr) n.candidates
        minList (cfgs.map QCfg.nbits)
      else do
        let cfgs ← mapE (fun c => get_attr_config c w_attr)
          (n.get_unique_weights_candidates w_attr)
        match cfgs with
        | [cfg] => Except.ok cfg.nbits
        | _ => Except.error RUErr.ambiguousDefault

/-- Claim-side per-cut activation total (C1 / spec P4): the sum over the
cut's selected target activation nodes (`include_reused=true`, a set, hence
deduplicated) of `output_element_count × effective_nbits / 8`. -/
def cut_total (crit : TargetInclusionCriterion) (mode : BitwidthMode)
    (act_qcs : List (BaseNode × QCfg)) (cut : List BaseNode) : Except RUErr ℚ := do
  let ns := dedupBy (fun n => n) (target_activation_nodes crit true cut)
  let bs ← mapE (fun n => do
      let nb ← get_activation_nbits n mode (alookup act_qcs n)
      Except.ok ((n.outputSize : ℚ) * nb / 8)) ns
  Except.ok bs.sum

/-- The node selection `compute_bops` actually performs: nodes with at least
one quantization-enabled weight attribute (criterion `AnyQuantized`, reused
nodes included) that carry a kernel weight attribute. -/
def bops_target_nodes (g : Graph) (fw : Framework) : List BaseNode :=
  g.nodes.filter (fun n =>
    !(target_weight_attrs n TargetInclusionCriterion.AnyQuantized).isEmpty
      && has_kernel_weight_to_quantize fw n)

/-! ### Concrete example data (spec §8 scenario 1, used by the witnesses) -/

/-- An 8-bit enabled configuration. -/
def qc8 : QCfg := ⟨8, true⟩

/-- A 4-bit enabled configuration. -/
def qc4 : QCfg := ⟨4, true⟩

/-- Candidate of a weight-less node: 8-bit activation. -/
def exActCand : CandidateCfg := ⟨qc8, []⟩

/-- Input placeholder node, 3·16·16 output elements. -/
def exInput : BaseNode := ⟨"input", "Input", 768, [], [exActCand], false, ""⟩

/-- Candidate of the conv node: 8-bit activation, 8-bit kernel and bias. -/
def exConvCand : CandidateCfg := ⟨qc8, [("kernel", qc8), ("bias", qc8)]⟩

/-- Conv node: 4·4·3·32 kernel, 32 bias, 32·16·16 output elements. -/
def exConv : BaseNode :=
  ⟨"conv", "Conv2D", 8192, [("kernel", 1536), ("bias", 32)], [exConvCand], false, ""⟩

/-- ReLU node. -/
def exRelu : BaseNode := ⟨"relu", "ReLU", 8192, [], [exActCand], false, ""⟩

/-- The tiny-chain graph of spec §8 scenario 1, with its live-tensor cuts. -/
def exGraph : Graph :=
  ⟨[exInput, exConv, exRelu],
   [⟨exInput, 0, exConv, 0⟩, ⟨exConv, 0, exRelu, 0⟩],
   [[exInput], [exInput, exConv], [exConv, exRelu]]⟩

/-- Framework collaborator for the example: conv ops have the "kernel"
attribute; the conv node has 4·4·3·32·16·16 MAC operations. -/
def exFw : Framework :=
  ⟨fun t => if t = "Conv2D" then ["kernel"] else [],
   fun n => if n.name = "conv" then 393216 else 0⟩

/-- A second conv node in the same reuse group as `exConv`, flagged reused. -/
def exConvReused : BaseNode :=
  ⟨"conv_r", "Conv2D", 8192, [("kernel", 1536), ("bias", 32)], [exConvCand], true, "rg"⟩

/-- Conv candidate with a 4-bit kernel (for the mixed-precision example). -/
def exConvCand4 : CandidateCfg := ⟨qc8, [("kernel", qc4), ("bias", qc8)]⟩

/-- A conv node with two kernel candidates, 4 and 8 bits. -/
def exConvMP : BaseNode :=
  ⟨"conv_mp", "Conv2D", 8192, [("kernel", 1536), ("bias", 32)],
   [exConvCand, exConvCand4], false, ""⟩

/-- Mixed-precision graph: input feeding the two-candidate conv node. -/
def exGraphMP : Graph :=
  ⟨[exInput, exConvMP],
   [⟨exInput, 0, exConvMP, 0⟩],
   [[exInput], [exInput, exConvMP], [exConvMP]]⟩

/-- Framework for the mixed-precision graph. -/
def exFwMP : Framework :=
  ⟨fun t => if t = "Conv2D" then ["kernel"] else [],
   fun n => if n.name = "conv_mp" then 393216 else 0⟩

/-- Conv candidate whose kernel quantization is disabled (and bias disabled). -/
def exConvCandDis : CandidateCfg := ⟨qc8, [("kernel", ⟨8, false⟩), ("bias", ⟨8, false⟩)]⟩

/-- A conv node carrying a kernel weight attribute with quantization disabled
on all its weight attributes. -/
def exConvDis : BaseNode :=
  ⟨"conv_d", "Conv2D", 8192, [("kernel", 1536), ("bias", 32)], [exConvCandDis], false, ""⟩

/-- Graph whose only kernel-carrying node has no quantization-enabled weight
attribute. -/
def exGraphDis : Graph :=
  ⟨[exInput, exConvDis],
   [⟨exInput, 0, exConvDis, 0⟩],
   [[exInput], [exInput, exConvDis], [exConvDis]]⟩

/-- Framework for the disabled-kernel graph. -/
def exFwDis : Framework :=
  ⟨fun t => if t = "Conv2D" then ["kernel"] else [],
   fun n => if n.name = "conv_d" then 393216 else 0⟩

/-- Minimal single-node graph for byte-level witnesses: one node with a
single 8-bit candidate, one 8-element kernel weight, 4 output elements. -/
def wNode : BaseNode := ⟨"w", "W", 4, [("k", 8)], [⟨⟨8, true⟩, [("k", ⟨8, true⟩)]⟩], false, ""⟩

/-- Graph containing only `wNode`, with the single cut `[wNode]`. -/
def gW : Graph := ⟨[wNode], [], [[wNode]]⟩

/-- Framework for `gW`. -/
def fwW : Framework := ⟨fun _ => ["k"], fun _ => 2⟩

/-- Input node of the minimal mixed-precision graph. -/
def iNode : BaseNode := ⟨"i", "I", 8, [], [⟨⟨8, true⟩, []⟩], false, ""⟩

/-- Two-candidate node: 8-bit activation/kernel or 4-bit activation/kernel. -/
def mNode : BaseNode :=
  ⟨"m", "M", 8, [("k", 4)],
   [⟨⟨8, true⟩, [("k", ⟨8, true⟩)]⟩, ⟨⟨4, true⟩, [("k", ⟨4, true⟩)]⟩], false, ""⟩

/-- Minimal mixed-precision graph: `iNode → mNode`, cuts `[i]` and `[i, m]`. -/
def gMP : Graph := ⟨[iNode, mNode], [⟨iNode, 0, mNode, 0⟩], [[iNode], [iNode, mNode]]⟩

/-- Framework for `gMP`: `mNode` has the kernel attribute "k" and 2 MACs. -/
def fwMP : Framework :=
  ⟨fun t => if t = "M" then ["k"] else [], fun n => if n.name = "m" then 2 else 0⟩

/-- A reused copy of the two-candidate kernel node (single candidate, 8-bit),
flagged `reuse` in reuse group "rg". -/
def mNodeR : BaseNode :=
  ⟨"mr", "M", 8, [("k", 4)], [⟨⟨8, true⟩, [("k", ⟨8, true⟩)]⟩], true, "rg"⟩

/-- Graph whose only kernel node is reused: `iNode → mNodeR`. -/
def gR : Graph := ⟨[iNode, mNodeR], [⟨iNode, 0, mNodeR, 0⟩], [[iNode], [iNode, mNodeR]]⟩

/-- Framework for `gR`: `mNodeR` has kernel attribute "k" and 2 MACs. -/
def fwR : Framework :=
  ⟨fun t => if t = "M" then ["k"] else [], fun n => if n.name = "mr" then 2 else 0⟩

/-- A reused kernel-carrying node whose weight quantization is disabled on
its only attribute (single candidate, 8-bit activation, disabled kernel). -/
def mNodeRD : BaseNode :=
  ⟨"mrd", "M", 8, [("k", 4)], [⟨⟨8, true⟩, [("k", ⟨8, false⟩)]⟩], true, "rg"⟩

/-- Graph whose only kernel node is reused with disabled weight quantization:
`iNode → mNodeRD`. -/
def gRD : Graph := ⟨[iNode, mNodeRD], [⟨iNode, 0, mNodeRD, 0⟩], [[iNode], [iNode, mNodeRD]]⟩

/-- Framework for `gRD`: `mNodeRD` has kernel attribute "k" and 2 MACs. -/
def fwRD : Framework :=
  ⟨fun t => if t = "M" then ["k"] else [], fun n => if n.name = "mrd" then 2 else 0⟩

/-- Pointwise relation between per-cut entries of
`compute_activation_utilization_by_cut` run at two bit-width modes on the
same cut list: a cut is skipped in both runs, or included in both with the
second total dominated by the first. -/
def cutRel (o1 o2 : Option (List BaseNode × Utilization × List (BaseNode × Utilization))) :
    Prop :=
  match o1, o2 with
  | none, none => True
  | some e1, some e2 => e2.2.1.bytes ≤ e1.2.1.bytes
  | _, _ => False

/-! ### Generic helper lemmas -/

theorem except_bind_ok {a b : Type} (x : a) (f : a → Except RUErr b) :
    (Except.ok x >>= f) = f x := rfl

theorem except_bind_err {a b : Type} (e : RUErr) (f : a → Except RUErr b) :
    ((Except.error e : Except RUErr a) >>= f) = Except.error e := rfl

theorem mapE_ok_forall2 {a b : Type} (f : a → Except RUErr b) :
    ∀ {l : List a} {ys : List b}, mapE f l = .ok ys →
      List.Forall₂ (fun x y => f x = .ok y) l ys := by
  intro l
  induction l with
  | nil =>
      intro ys h
      simp only [mapE] at h
      cases h
      exact List.Forall₂.nil
  | cons x xs ih =>
      intro ys h
      simp only [mapE] at h
      cases hx : f x with
      | error e => rw [hx, except_bind_err] at h; cases h
      | ok y =>
          rw [hx, except_bind_ok] at h
          cases hxs : mapE f xs with
          | error e => rw [hxs, except_bind_err] at h; cases h
          | ok ys2 =>
              rw [hxs, except_bind_ok] at h
              cases h
              exact List.Forall₂.cons hx (ih hxs)

theorem forall2_mapE {a b : Type} (f : a → Except RUErr b) :
    ∀ {l : List a} {ys : List b},
      List.Forall₂ (fun x y => f x = .ok y) l ys → mapE f l = .ok ys := by
  intro l ys h
  induction h with
  | nil => rfl
  | cons hx _ ih =>
      simp only [mapE]
      rw [hx, except_bind_ok, ih, except_bind_ok]

theorem forall2_mem_left {a b : Type} {R : a → b → Prop} :
    ∀ {l : List a} {ys : List b}, List.Forall₂ R l ys → ∀ {x}, x ∈ l →
      ∃ y ∈ ys, R x y := by
  intro l ys h
  induction h with
  | nil => intro x hx; cases hx
  | cons hr _ ih =>
      intro x hx
      rcases List.mem_cons.mp hx with h1 | h2
      · exact ⟨_, List.mem_cons_self _ _, h1 ▸ hr⟩
      · rcases ih h2 with ⟨y, hy, hxy⟩
        exact ⟨y, List.mem_cons_of_mem _ hy, hxy⟩

theorem forall2_mem_right {a b : Type} {R : a → b → Prop} :
    ∀ {l : List a} {ys : List b}, List.Forall₂ R l ys → ∀ {y}, y ∈ ys →
      ∃ x ∈ l, R x y := by
  intro l ys h
  induction h with
  | nil => intro y hy; cases hy
  | cons hr _ ih =>
      intro y hy
      rcases List.mem_cons.mp hy with h1 | h2
      · exact ⟨_, List.mem_cons_self _ _, h1 ▸ hr⟩
      · rcases ih h2 with ⟨x, hx, hxy⟩
        exact ⟨x, List.mem_cons_of_mem _ hx, hxy⟩

/-! ### foldl max / min characterizations -/

theorem le_foldl_max (x : ℕ) : ∀ (xs : List ℕ), x ≤ xs.foldl max x := by
  intro xs
  induction xs generalizing x with
  | nil => exact le_refl x
  | cons y ys ih =>
      calc x ≤ max x y := le_max_left x y
        _ ≤ ys.foldl max (max x y) := ih (max x y)

theorem le_foldl_max_of_mem {a : ℕ} :
    ∀ {xs : List ℕ} (x : ℕ), a ∈ xs → a ≤ xs.foldl max x := by
  intro xs
  induction xs with
  | nil => intro x hx; cases hx
  | cons y ys ih =>
      intro x hx
      rcases List.mem_cons.mp hx with h1 | h2
      · subst h1
        calc a ≤ max x a := le_max_right x a
          _ ≤ ys.foldl max (max x a) := le_foldl_max _ _
      · exact ih (max x y) h2

theorem foldl_max_mem : ∀ (xs : List ℕ) (x : ℕ), xs.foldl max x = x ∨ xs.foldl max x ∈ xs := by
  intro xs
  induction xs with
  | nil => intro x; exact Or.inl rfl
  | cons y ys ih =>
      intro x
      rcases ih (max x y) with h | h
      · rw [List.foldl_cons, h]
        rcases max_choice x y with h1 | h1
        · exact Or.inl h1
        · exact Or.inr (by rw [h1]; exact List.mem_cons_self _ _)
      · exact Or.inr (List.mem_cons_of_mem _ (by rw [List.foldl_cons]; exact h))

theorem foldl_min_le (x : ℕ) : ∀ (xs : List ℕ), xs.foldl min x ≤ x := by
  intro xs
  induction xs generalizing x with
  | nil => exact le_refl x
  | cons y ys ih =>
      calc ys.foldl min (min x y) ≤ min x y := ih (min x y)
        _ ≤ x := min_le_left x y

theorem foldl_min_le_of_mem {a : ℕ} :
    ∀ {xs : List ℕ} (x : ℕ), a ∈ xs → xs.foldl min x ≤ a := by
  intro xs
  induction xs with
  | nil => intro x hx; cases hx
  | cons y ys ih =>
      intro x hx
      rcases List.mem_cons.mp hx with h1 | h2
      · subst h1
        calc ys.foldl min (min x a) ≤ min x a := foldl_min_le _ _
          _ ≤ a := min_le_right x a
      · exact ih (min x y) h2

theorem foldl_min_mem : ∀ (xs : List ℕ) (x : ℕ), xs.foldl min x = x ∨ xs.foldl min x ∈ xs := by
  intro xs
  induction xs with
  | nil => intro x; exact Or.inl rfl
  | cons y ys ih =>
      intro x
      rcases ih (min x y) with h | h
      · rw [List.foldl_cons, h]
        rcases min_choice x y with h1 | h1
        · exact Or.inl h1
        · exact Or.inr (by rw [h1]; exact List.mem_cons_self _ _)
      · exact Or.inr (List.mem_cons_of_mem _ (by rw [List.foldl_cons]; exact h))

theorem maxList_ok {l : List ℕ} {M : ℕ} (h : maxList l = .ok M) :
    M ∈ l ∧ ∀ x ∈ l, x ≤ M := by
  cases l with
  | nil => cases h
  | cons x xs =>
      simp only [maxList] at h
      cases h
      constructor
      · rcases foldl_max_mem xs x with h1 | h1
        · exact (by rw [h1]; exact List.mem_cons_self _ _)
        · exact List.mem_cons_of_mem _ h1
      · intro y hy
        rcases List.mem_cons.mp hy with h1 | h1
        · exact h1.symm ▸ le_foldl_max x xs
        · exact le_foldl_max_of_mem x h1

theorem minList_ok {l : List ℕ} {m : ℕ} (h : minList l = .ok m) :
    m ∈ l ∧ ∀ x ∈ l, m ≤ x := by
  cases l with
  | nil => cases h
  | cons x xs =>
      simp only [minList] at h
      cases h
      constructor
      · rcases foldl_min_mem xs x with h1 | h1
        · exact (by rw [h1]; exact List.mem_cons_self _ _)
        · exact List.mem_cons_of_mem _ h1
      · intro y hy
        rcases List.mem_cons.mp hy with h1 | h1
        · exact h1.symm ▸ foldl_min_le x xs
        · exact foldl_min_le_of_mem x h1

theorem maxList_isOk {l : List ℕ} (h : l ≠ []) : ∃ M, maxList l = .ok M := by
  cases l with
  | nil => exact absurd rfl h
  | cons x xs => exact ⟨xs.foldl max x, rfl⟩

theorem maxList_congr {l1 l2 : List ℕ} (h : ∀ x, x ∈ l1 ↔ x ∈ l2) :
    maxList l1 = maxList l2 := by
  cases h1 : maxList l1 with
  | error e =>
      cases l1 with
      | nil =>
          cases l2 with
          | nil => exact h1.symm
          | cons y ys => exact absurd ((h y).mpr (List.mem_cons_self _ _)) (List.not_mem_nil y)
      | cons x xs => simp only [maxList] at h1; exact Except.noConfusion h1
  | ok M =>
      rcases maxList_ok h1 with ⟨hmem, hub⟩
      have h2 : l2 ≠ [] := by
        intro he
        rw [he] at h
        exact List.not_mem_nil M ((h M).mp hmem)
      rcases maxList_isOk h2 with ⟨M2, hM2⟩
      rcases maxList_ok hM2 with ⟨hmem2, hub2⟩
      have e1 : M ≤ M2 := hub2 M ((h M).mp hmem)
      have e2 : M2 ≤ M := hub M2 ((h M2).mpr hmem2)
      rw [hM2, le_antisymm e1 e2]

theorem minList_isOk {l : List ℕ} (h : l ≠ []) : ∃ m, minList l = .ok m := by
  cases l with
  | nil => exact absurd rfl h
  | cons x xs => exact ⟨xs.foldl min x, rfl⟩

theorem minList_congr {l1 l2 : List ℕ} (h : ∀ x, x ∈ l1 ↔ x ∈ l2) :
    minList l1 = minList l2 := by
  cases h1 : minList l1 with
  | error e =>
      cases l1 with
      | nil =>
          cases l2 with
          | nil => exact h1.symm
          | cons y ys => exact absurd ((h y).mpr (List.mem_cons_self _ _)) (List.not_mem_nil y)
      | cons x xs => simp only [minList] at h1; exact Except.noConfusion h1
  | ok m =>
      rcases minList_ok h1 with ⟨hmem, hlb⟩
      have h2 : l2 ≠ [] := by
        intro he
        rw [he] at h
        exact List.not_mem_nil m ((h m).mp hmem)
      rcases minList_isOk h2 with ⟨m2, hm2⟩
      rcases minList_ok hm2 with ⟨hmem2, hlb2⟩
      have e1 : m ≤ m2 := hlb m2 ((h m2).mpr hmem2)
      have e2 : m2 ≤ m := hlb2 m ((h m).mp hmem)
      rw [hm2, le_antisymm e1 e2]

/-! ### dedupBy lemmas -/

theorem dedupByGo_map_mem {α β : Type} [DecidableEq β] (f : α → β) :
    ∀ (l : List α) (seen : List β) (y : β),
      (y ∈ (dedupByGo f seen l).map f) ↔ (y ∈ l.map f ∧ y ∉ seen) := by
  intro l
  induction l with
  | nil =>
      intro seen y
      simp [dedupByGo]
  | cons x xs ih =>
      intro seen y
      by_cases hc : f x ∈ seen
      · rw [dedupByGo, if_pos hc]
        rw [ih seen y]
        simp only [List.map_cons, List.mem_cons]
        constructor
        · rintro ⟨h1, h2⟩; exact ⟨Or.inr h1, h2⟩
        · rintro ⟨h1 | h1, h2⟩
          · exact absurd (h1 ▸ hc) h2
          · exact ⟨h1, h2⟩
      · rw [dedupByGo, if_neg hc]
        simp only [List.map_cons, List.mem_cons]
        rw [ih (f x :: seen) y]
        simp only [List.mem_cons]
        constructor
        · rintro (h | ⟨h1, h2⟩)
          · subst h; exact ⟨Or.inl rfl, hc⟩
          · exact ⟨Or.inr h1, fun hy => h2 (Or.inr hy)⟩
        · rintro ⟨h1 | h1, h2⟩
          · exact Or.inl h1
          · by_cases hyx : y = f x
            · exact Or.inl hyx
            · exact Or.inr ⟨h1, by rintro (h3 | h3); exact hyx h3; exact h2 h3⟩

theorem dedupBy_map_mem {α β : Type} [DecidableEq β] (f : α → β) (l : List α) (y : β) :
    (y ∈ (dedupBy f l).map f) ↔ (y ∈ l.map f) := by
  rw [dedupBy, dedupByGo_map_mem]
  simp

theorem mem_dedupBy_id {α : Type} [DecidableEq α] (l : List α) (x : α) :
    x ∈ dedupBy (fun a => a) l ↔ x ∈ l := by
  have h := dedupBy_map_mem (fun a : α => a) l x
  simpa using h

theorem dedupByGo_sub {α β : Type} [DecidableEq β] (f : α → β) :
    ∀ (l : List α) (seen : List β) (x : α), x ∈ dedupByGo f seen l → x ∈ l := by
  intro l
  induction l with
  | nil => intro seen x hx; simp [dedupByGo] at hx
  | cons z zs ih =>
      intro seen x hx
      by_cases hc : f z ∈ seen
      · rw [dedupByGo, if_pos hc] at hx
        exact List.mem_cons_of_mem _ (ih seen x hx)
      · rw [dedupByGo, if_neg hc] at hx
        rcases List.mem_cons.mp hx with h | h
        · exact h ▸ List.mem_cons_self _ _
        · exact List.mem_cons_of_mem _ (ih _ x h)

theorem dedupBy_sub {α β : Type} [DecidableEq β] (f : α → β) (l : List α) (x : α)
    (h : x ∈ dedupBy f l) : x ∈ l :=
  dedupByGo_sub f l [] x h

/-! ### Utilization sums and maxima -/

theorem sumUtil_bytes : ∀ (l : List Utilization),
    (sumUtil l).bytes = (l.map Utilization.bytes).sum := by
  intro l
  induction l with
  | nil => rfl
  | cons x xs ih =>
      simp only [sumUtil, List.foldr_cons, List.map_cons, List.sum_cons] at ih ⊢
      rw [Utilization.add, ← ih]

theorem sumUtil_bytes_nonneg {l : List Utilization}
    (h : ∀ u ∈ l, 0 ≤ u.bytes) : 0 ≤ (sumUtil l).bytes := by
  induction l with
  | nil => exact le_refl 0
  | cons x xs ih =>
      have hx := h x (List.mem_cons_self _ _)
      have hxs := ih (fun u hu => h u (List.mem_cons_of_mem _ hu))
      simp only [sumUtil, List.foldr_cons] at hxs ⊢
      rw [Utilization.add]
      exact add_nonneg hx hxs

theorem sumUtil_bytes_mono :
    ∀ {l1 l2 : List Utilization},
      List.Forall₂ (fun u v => u.bytes ≤ v.bytes) l1 l2 →
      (sumUtil l1).bytes ≤ (sumUtil l2).bytes := by
  intro l1 l2 h
  induction h with
  | nil => exact le_refl 0
  | cons hx _ ih =>
      simp only [sumUtil, List.foldr_cons] at ih ⊢
      rw [Utilization.add, Utilization.add]
      exact add_le_add hx ih

theorem le_foldl_maxUtil (x : Utilization) :
    ∀ (xs : List Utilization),
      x.bytes ≤ (xs.foldl (fun acc u => if acc.bytes < u.bytes then u else acc) x).bytes := by
  intro xs
  induction xs generalizing x with
  | nil => exact le_refl _
  | cons y ys ih =>
      rw [List.foldl_cons]
      by_cases hc : x.bytes < y.bytes
      · rw [if_pos hc]
        exact le_of_lt (lt_of_lt_of_le hc (ih y))
      · rw [if_neg hc]
        exact ih x

theorem le_foldl_maxUtil_of_mem {a : Utilization} :
    ∀ {xs : List Utilization} (x : Utilization), a ∈ xs →
      a.bytes ≤ (xs.foldl (fun acc u => if acc.bytes < u.bytes then u else acc) x).bytes := by
  intro xs
  induction xs with
  | nil => intro x hx; cases hx
  | cons y ys ih =>
      intro x hx
      rw [List.foldl_cons]
      rcases List.mem_cons.mp hx with h1 | h2
      · subst h1
        by_cases hc : x.bytes < a.bytes
        · rw [if_pos hc]
          exact le_foldl_maxUtil a ys
        · rw [if_neg hc]
          exact le_trans (not_lt.mp hc) (le_foldl_maxUtil x ys)
      · exact ih _ h2

theorem foldl_maxUtil_mem :
    ∀ (xs : List Utilization) (x : Utilization),
      (xs.foldl (fun acc u => if acc.bytes < u.bytes then u else acc) x) = x ∨
      (xs.foldl (fun acc u => if acc.bytes < u.bytes then u else acc) x) ∈ xs := by
  intro xs
  induction xs with
  | nil => intro x; exact Or.inl rfl
  | cons y ys ih =>
      intro x
      rw [List.foldl_cons]
      rcases ih (if x.bytes < y.bytes then y else x) with h | h
      · rw [h]
        by_cases hc : x.bytes < y.bytes
        · rw [if_pos hc]
          exact Or.inr (List.mem_cons_self _ _)
        · rw [if_neg hc]
          exact Or.inl rfl
      · exact Or.inr (List.mem_cons_of_mem _ h)

theorem maxUtilList_ok {l : List Utilization} {t : Utilization}
    (h : maxUtilList l = .ok t) : t ∈ l ∧ ∀ u ∈ l, u.bytes ≤ t.bytes := by
  cases l with
  | nil => cases h
  | cons x xs =>
      simp only [maxUtilList] at h
      cases h
      constructor
      · rcases foldl_maxUtil_mem xs x with h1 | h1
        · exact (by rw [h1]; exact List.mem_cons_self _ _)
        · exact List.mem_cons_of_mem _ h1
      · intro u hu
        rcases List.mem_cons.mp hu with h1 | h1
        · exact h1 ▸ le_foldl_maxUtil x xs
        · exact le_foldl_maxUtil_of_mem x h1

theorem maxUtilList_isOk {l : List Utilization} (h : l ≠ []) :
    ∃ t, maxUtilList l = .ok t := by
  cases l with
  | nil => exact absurd rfl h
  | cons x xs => exact ⟨_, rfl⟩

/-! ### foldr max 0 characterization over ℚ -/

theorem le_foldr_max_zero {t : ℚ} : ∀ {l : List ℚ}, t ∈ l → t ≤ l.foldr max 0 := by
  intro l
  induction l with
  | nil => intro h; cases h
  | cons x xs ih =>
      intro h
      rw [List.foldr_cons]
      rcases List.mem_cons.mp h with h1 | h1
      · exact h1 ▸ le_max_left _ _
      · exact le_trans (ih h1) (le_max_right _ _)

theorem foldr_max_zero_le {M : ℚ} (hnn : 0 ≤ M) :
    ∀ {l : List ℚ}, (∀ t ∈ l, t ≤ M) → l.foldr max 0 ≤ M := by
  intro l
  induction l with
  | nil => intro _; exact hnn
  | cons x xs ih =>
      intro h
      rw [List.foldr_cons]
      exact max_le (h x (List.mem_cons_self _ _))
        (ih (fun t ht => h t (List.mem_cons_of_mem _ ht)))

theorem foldr_max_zero_spec {l : List ℚ} {M : ℚ}
    (hmem : M ∈ l) (hub : ∀ t ∈ l, t ≤ M) (hnn : 0 ≤ M) :
    l.foldr max 0 = M :=
  le_antisymm (foldr_max_zero_le hnn hub) (le_foldr_max_zero hmem)

/-! ### Candidate attribute-config extraction lemmas -/

theorem mapE_attr_ok {attr : String} :
    ∀ {l : List CandidateCfg}, (∀ c ∈ l, (alookup c.weights attr).isSome) →
      mapE (fun c => get_attr_config c attr) l =
        .ok (l.filterMap (fun c => alookup c.weights attr)) := by
  intro l
  induction l with
  | nil => intro _; rfl
  | cons x xs ih =>
      intro h
      have hx := h x (List.mem_cons_self _ _)
      cases hlx : alookup x.weights attr with
      | none => rw [hlx] at hx; cases hx
      | some cfg =>
          have hgx : get_attr_config x attr = .ok cfg := by
            simp [get_attr_config, hlx]
          simp only [mapE, hgx, except_bind_ok]
          rw [ih (fun c hc => h c (List.mem_cons_of_mem _ hc)), except_bind_ok]
          simp [List.filterMap_cons, hlx]

theorem mapE_attr_err {attr : String} :
    ∀ {l : List CandidateCfg}, (∃ c ∈ l, alookup c.weights attr = none) →
      mapE (fun c => get_attr_config c attr) l = .error .keyError := by
  intro l
  induction l with
  | nil => rintro ⟨c, hc, _⟩; cases hc
  | cons x xs ih =>
      rintro ⟨c, hc, hnone⟩
      cases hlx : alookup x.weights attr with
      | none =>
          have hgx : get_attr_config x attr = .error .keyError := by
            simp [get_attr_config, hlx]
          simp only [mapE, hgx, except_bind_err]
      | some cfg =>
          have hgx : get_attr_config x attr = .ok cfg := by
            simp [get_attr_config, hlx]
          have hcx : c ∈ xs := by
            rcases List.mem_cons.mp hc with h1 | h1
            · subst h1; rw [hlx] at hnone; cases hnone
            · exact h1
          simp only [mapE, hgx, except_bind_ok]
          rw [ih ⟨c, hcx, hnone⟩, except_bind_err]

theorem exists_none_dedupBy {α γ : Type} [DecidableEq γ] (f : α → Option γ) (l : List α) :
    (∃ c ∈ dedupBy f l, f c = none) ↔ (∃ c ∈ l, f c = none) := by
  constructor
  · rintro ⟨c, hc, hn⟩
    exact ⟨c, dedupBy_sub f l c hc, hn⟩
  · rintro ⟨c, hc, hn⟩
    have h1 : (none : Option γ) ∈ l.map f := List.mem_map.mpr ⟨c, hc, hn⟩
    rcases List.mem_map.mp ((dedupBy_map_mem f l none).mpr h1) with ⟨d, hd, hdn⟩
    exact ⟨d, hd, hdn⟩

theorem filterMap_dedupBy_mem {α γ : Type} [DecidableEq γ] (f : α → Option γ)
    (l : List α) (y : γ) : y ∈ (dedupBy f l).filterMap f ↔ y ∈ l.filterMap f := by
  rw [List.mem_filterMap, List.mem_filterMap]
  constructor
  · rintro ⟨c, hc, hy⟩
    exact ⟨c, dedupBy_sub f l c hc, hy⟩
  · rintro ⟨c, hc, hy⟩
    have h1 : (some y) ∈ l.map f := List.mem_map.mpr ⟨c, hc, hy⟩
    rcases List.mem_map.mp ((dedupBy_map_mem f l (some y)).mpr h1) with ⟨d, hd, hdy⟩
    exact ⟨d, hd, hdy⟩

theorem map_nbits_filterMap_dedup_mem {α : Type}
    (f : α → Option QCfg) (l : List α) (x : ℕ) :
    x ∈ ((dedupBy f l).filterMap f).map QCfg.nbits ↔ x ∈ (l.filterMap f).map QCfg.nbits := by
  constructor
  · intro h
    rcases List.mem_map.mp h with ⟨cfg, hc, hx⟩
    exact List.mem_map.mpr ⟨cfg, (filterMap_dedupBy_mem f l cfg).mp hc, hx⟩
  · intro h
    rcases List.mem_map.mp h with ⟨cfg, hc, hx⟩
    exact List.mem_map.mpr ⟨cfg, (filterMap_dedupBy_mem f l cfg).mpr hc, hx⟩

/-! ### Claim theorems -/

/-- **C2**: for every node, the effective activation bit-width is resolved in
the spec's order — a supplied custom config (mode must be QCustom) returns 32
when quantization is disabled there and its `n_bits` otherwise; else Float
mode or disabled activation quantization gives 32; else Q8Bit gives 8; else
QMaxBit/QMinBit give the max/min of `n_bits` over all candidates; else
(QCustom/QDefaultSP without custom config) the single unique candidate's
`n_bits`, failing unless exactly one unique candidate exists.  Weight
resolution is the same with the custom-config lookup and the unique-candidate
set restricted to the named weight attribute. -/
theorem effective_nbits_follow_spec_order (n : BaseNode) (mode : BitwidthMode)
    (act_qc : Option QCfg) (w_attr : String) (w_qc : Option NodeWQC) :
    get_activation_nbits n mode act_qc = activation_nbits_spec n mode act_qc ∧
    get_weight_nbits n w_attr mode w_qc = weight_nbits_spec n w_attr mode w_qc := by
  constructor
  · cases act_qc with
    | some qc =>
        simp only [get_activation_nbits, activation_nbits_spec]
        by_cases hm : mode ≠ BitwidthMode.QCustom
        · rw [if_pos hm, if_pos hm]
        · rw [if_neg hm, if_neg hm]
          cases hqe : qc.enabled <;> simp [hqe, FLOAT_BITWIDTH]
    | none =>
        simp only [get_activation_nbits, activation_nbits_spec, Bool.not_eq_true]
        rfl
  · by_cases h1 : w_qc.isSome ∧ mode ≠ BitwidthMode.QCustom
    · simp only [get_weight_nbits, weight_nbits_spec, if_pos h1]
    · simp only [get_weight_nbits, weight_nbits_spec, if_neg h1]
      cases hl : w_qc.bind (fun qc => alookup qc w_attr) with
      | some cfg =>
          cases hce : cfg.enabled <;> simp [hce, FLOAT_BITWIDTH]
      | none =>
          simp only [Bool.not_eq_true]
          by_cases h2 : mode = BitwidthMode.Float ∨
              n.is_weights_quantization_enabled w_attr = false
          · rw [if_pos h2, if_pos h2]
            rfl
          · rw [if_neg h2, if_neg h2]
            cases mode with
            | Float => exact absurd (Or.inl rfl) h2
            | Q8Bit => rfl
            | QCustom => rfl
            | QDefaultSP => rfl
            | QMaxBit =>
                show (do
                    let w_qcs ← mapE (fun c => get_attr_config c w_attr)
                      (n.get_unique_weights_candidates w_attr)
                    maxList (w_qcs.map QCfg.nbits)) =
                  (do
                    let cfgs ← mapE (fun c => get_attr_config c w_attr) n.candidates
                    maxList (cfgs.map QCfg.nbits))
                simp only [BaseNode.get_unique_weights_candidates]
                by_cases hex : ∃ c ∈ n.candidates, alookup c.weights w_attr = none
                · rw [mapE_attr_err hex,
                    mapE_attr_err ((exists_none_dedupBy _ _).mpr hex)]
                · have hall : ∀ c ∈ n.candidates, (alookup c.weights w_attr).isSome := by
                    intro c hc
                    cases hlc : alookup c.weights w_attr with
                    | none => exact absurd ⟨c, hc, hlc⟩ hex
                    | some _ => rfl
                  have hall2 : ∀ c ∈ dedupBy (fun c => alookup c.weights w_attr) n.candidates,
                      (alookup c.weights w_attr).isSome :=
                    fun c hc => hall c (dedupBy_sub _ _ c hc)
                  rw [mapE_attr_ok hall2, mapE_attr_ok hall]
                  exact maxList_congr (map_nbits_filterMap_dedup_mem _ n.candidates)
            | QMinBit =>
                show (do
                    let w_qcs ← mapE (fun c => get_attr_config c w_attr)
                      (n.get_unique_weights_candidates w_attr)
                    minList (w_qcs.map QCfg.nbits)) =
                  (do
                    let cfgs ← mapE (fun c => get_attr_config c w_attr) n.candidates
                    minList (cfgs.map QCfg.nbits))
                simp only [BaseNode.get_unique_weights_candidates]
                by_cases hex : ∃ c ∈ n.candidates, alookup c.weights w_attr = none
                · rw [mapE_attr_err hex,
                    mapE_attr_err ((exists_none_dedupBy _ _).mpr hex)]
                · have hall : ∀ c ∈ n.candidates, (alookup c.weights w_attr).isSome := by
                    intro c hc
                    cases hlc : alookup c.weights w_attr with
                    | none => exact absurd ⟨c, hc, hlc⟩ hex
                    | some _ => rfl
                  have hall2 : ∀ c ∈ dedupBy (fun c => alookup c.weights w_attr) n.candidates,
                      (alookup c.weights w_attr).isSome :=
                    fun c hc => hall c (dedupBy_sub _ _ c hc)
                  rw [mapE_attr_ok hall2, mapE_attr_ok hall]
                  exact minList_congr (map_nbits_filterMap_dedup_mem _ n.candidates)

/-- **C3**: a non-empty custom activation or weight configuration supplied
with a bit-width mode other than QCustom makes `compute_resource_utilization`
fail with the unexpected-custom-configuration error, returning no record. -/
theorem custom_cfg_rejected_for_noncustom_mode (g : Graph) (fw : Framework)
    (crit : TargetInclusionCriterion) (mode : BitwidthMode)
    (act_qcs : List (BaseNode × QCfg)) (w_qcs : List (BaseNode × NodeWQC))
    (ru_targets : Option (List RUTarget)) (allow : Bool)
    (hne : ¬ w_qcs.isEmpty ∨ ¬ act_qcs.isEmpty) (hm : mode ≠ BitwidthMode.QCustom) :
    compute_resource_utilization g fw crit mode act_qcs w_qcs ru_targets allow =
      .error .unexpectedCustomCfg := by
  unfold compute_resource_utilization compute_ru_checked
  rw [if_pos ⟨hne, hm⟩]

/-- Witness for C3: the spec §8 scenario 4 — `QMinBit` with a non-empty
custom weight configuration is rejected. -/
theorem custom_cfg_rejected_for_noncustom_mode_witness :
    compute_resource_utilization exGraph exFw TargetInclusionCriterion.AnyQuantized
      BitwidthMode.QMinBit [] [(exConv, [("kernel", qc8)])] none false =
      .error .unexpectedCustomCfg :=
  custom_cfg_rejected_for_noncustom_mode exGraph exFw
    TargetInclusionCriterion.AnyQuantized BitwidthMode.QMinBit
    [] [(exConv, [("kernel", qc8)])] none false
    (Or.inl (by decide)) (by decide)

/-- **C4**: in QCustom mode, a non-empty weight config with none of
{Weights, Total, BOPS} among the requested targets fails unless
`allow_unused_qcs`, in which case the weight config is silently dropped and
the computation proceeds as if it were absent; symmetrically for a supplied
activation config versus {Activation, Total, BOPS} (when the weight config is
not itself unused, which would be reported first). -/
theorem unused_custom_cfg_handling (g : Graph) (fw : Framework)
    (crit : TargetInclusionCriterion)
    (act_qcs : List (BaseNode × QCfg)) (w_qcs : List (BaseNode × NodeWQC))
    (ts : List RUTarget) (hts : ts ≠ []) :
    ((¬ w_qcs.isEmpty ∧
        (∀ t ∈ ts, t ≠ RUTarget.Weights ∧ t ≠ RUTarget.Total ∧ t ≠ RUTarget.BOPS)) →
      compute_resource_utilization g fw crit BitwidthMode.QCustom act_qcs w_qcs
          (some ts) false = .error .unusedWCfg ∧
      compute_resource_utilization g fw crit BitwidthMode.QCustom act_qcs w_qcs
          (some ts) true =
        compute_resource_utilization g fw crit BitwidthMode.QCustom act_qcs []
          (some ts) true) ∧
    ((¬ act_qcs.isEmpty ∧ (w_qcs.isEmpty ∨ RUTarget.Weights ∈ ts) ∧
        (∀ t ∈ ts, t ≠ RUTarget.Activation ∧ t ≠ RUTarget.Total ∧ t ≠ RUTarget.BOPS)) →
      compute_resource_utilization g fw crit BitwidthMode.QCustom act_qcs w_qcs
          (some ts) false = .error .unusedActCfg ∧
      compute_resource_utilization g fw crit BitwidthMode.QCustom act_qcs w_qcs
          (some ts) true =
        compute_resource_utilization g fw crit BitwidthMode.QCustom [] w_qcs
          (some ts) true) := by
  have hE : ts.isEmpty = false := by
    cases ts with
    | nil => exact absurd rfl hts
    | cons a l => rfl
  have hnorm : norm_targets (some ts) = ts := by
    simp [norm_targets, hE]
  have hQ : ¬ ((¬ w_qcs.isEmpty = true ∨ ¬ act_qcs.isEmpty = true) ∧
      BitwidthMode.QCustom ≠ BitwidthMode.QCustom) := fun h => h.2 rfl
  have hQ2 : ∀ (wq : List (BaseNode × NodeWQC)) (aq : List (BaseNode × QCfg)),
      ¬ ((¬ wq.isEmpty = true ∨ ¬ aq.isEmpty = true) ∧
        BitwidthMode.QCustom ≠ BitwidthMode.QCustom) := fun _ _ h => h.2 rfl
  constructor
  · rintro ⟨hw, hwt⟩
    have hw1 : w_qcs.isEmpty = false := by
      cases hwe : w_qcs.isEmpty with
      | false => rfl
      | true => exact absurd hwe hw
    have hany : (ts.any fun t =>
        t == RUTarget.Weights || t == RUTarget.Total || t == RUTarget.BOPS) = false := by
      apply List.any_eq_false.mpr
      intro t ht
      rcases hwt t ht with ⟨h1, h2, h3⟩
      simp [h1, h2, h3]
    have hwu : w_unused_cond w_qcs ts = true := by
      simp [w_unused_cond, hany, hw1]
    have hwu2 : w_unused_cond [] ts = false := by
      simp [w_unused_cond]
    constructor
    · unfold compute_resource_utilization compute_ru_checked
      rw [hnorm, if_neg hQ, hwu]
      rfl
    · unfold compute_resource_utilization compute_ru_checked
      rw [hnorm, if_neg hQ, if_neg (hQ2 [] act_qcs), hwu, hwu2]
      rfl
  · rintro ⟨ha, hwok, hat⟩
    have ha1 : act_qcs.isEmpty = false := by
      cases hae : act_qcs.isEmpty with
      | false => rfl
      | true => exact absurd hae ha
    have hany : (ts.any fun t =>
        t == RUTarget.Activation || t == RUTarget.Total || t == RUTarget.BOPS) = false := by
      apply List.any_eq_false.mpr
      intro t ht
      rcases hat t ht with ⟨h1, h2, h3⟩
      simp [h1, h2, h3]
    have hau : act_unused_cond act_qcs ts = true := by
      simp [act_unused_cond, hany, ha1]
    have hau2 : act_unused_cond [] ts = false := by
      simp [act_unused_cond]
    have hwnu : w_unused_cond w_qcs ts = false := by
      rcases hwok with h | h
      · simp [w_unused_cond, h]
      · have hx : (ts.any fun t =>
            t == RUTarget.Weights || t == RUTarget.Total || t == RUTarget.BOPS) = true :=
          List.any_eq_true.mpr ⟨RUTarget.Weights, h, by simp⟩
        simp [w_unused_cond, hx]
    constructor
    · unfold compute_resource_utilization compute_ru_checked
      rw [hnorm, if_neg hQ, hwnu, hau]
      rfl
    · unfold compute_resource_utilization compute_ru_checked
      rw [hnorm, if_neg hQ, if_neg (hQ2 w_qcs []), hwnu, hau, hau2]
      rfl

/-- Witness for C4: spec §8 scenario 5 — QCustom with a weight config and
`targets={Activation}` errors with `allow_unused_qcs=false` and silently
drops the config with `allow_unused_qcs=true`. -/
theorem unused_custom_cfg_handling_witness :
    compute_resource_utilization exGraph exFw TargetInclusionCriterion.QConfigurable
        BitwidthMode.QCustom [] [(exConv, [("kernel", qc8)])]
        (some [RUTarget.Activation]) false = .error .unusedWCfg ∧
    compute_resource_utilization exGraph exFw TargetInclusionCriterion.QConfigurable
        BitwidthMode.QCustom [] [(exConv, [("kernel", qc8)])]
        (some [RUTarget.Activation]) true =
      compute_resource_utilization exGraph exFw TargetInclusionCriterion.QConfigurable
        BitwidthMode.QCustom [] [] (some [RUTarget.Activation]) true :=
  (unused_custom_cfg_handling exGraph exFw TargetInclusionCriterion.QConfigurable
      [] [(exConv, [("kernel", qc8)])] [RUTarget.Activation] (by decide)).1
    ⟨by decide, by decide⟩

theorem mapE_error_exists {a b : Type} (f : a → Except RUErr b) :
    ∀ {l : List a} {e : RUErr}, mapE f l = .error e → ∃ x ∈ l, f x = .error e := by
  intro l
  induction l with
  | nil => intro e h; cases h
  | cons x xs ih =>
      intro e h
      simp only [mapE] at h
      cases hx : f x with
      | error e2 =>
          rw [hx, except_bind_err] at h
          cases h
          exact ⟨x, List.mem_cons_self _ _, hx⟩
      | ok y =>
          rw [hx, except_bind_ok] at h
          cases hxs : mapE f xs with
          | error e2 =>
              rw [hxs, except_bind_err] at h
              cases h
              rcases ih hxs with ⟨z, hz, hfz⟩
              exact ⟨z, List.mem_cons_of_mem _ hz, hfz⟩
          | ok ys => rw [hxs, except_bind_ok] at h; cases h

theorem get_weight_nbits_no_unknown (n : BaseNode) (attr : String) (mode : BitwidthMode)
    (qc : Option NodeWQC) :
    get_weight_nbits n attr mode qc ≠ .error .unknownAttribute := by
  intro h
  unfold get_weight_nbits at h
  split at h
  · simp at h
  · split at h
    · simp at h
    · split at h
      · simp at h
      · split at h
        · simp at h
        · cases hm : mapE (fun c => get_attr_config c attr)
              (n.get_unique_weights_candidates attr) with
          | error e =>
              rw [hm, except_bind_err] at h
              rcases mapE_error_exists _ hm with ⟨c, _, hc⟩
              unfold get_attr_config at hc
              cases h
              split at hc
              · cases hc
              · cases hc
          | ok cfgs =>
              rw [hm, except_bind_ok] at h
              split at h
              · cases hml : maxList (cfgs.map QCfg.nbits) with
                | error e => rw [hml] at h; cases hml2 : cfgs.map QCfg.nbits with
                    | nil => simp [maxList, hml2] at hml; cases h; simp at hml
                    | cons a l => simp [maxList, hml2] at hml
                | ok v => rw [hml] at h; cases h
              · split at h
                · cases hml : minList (cfgs.map QCfg.nbits) with
                  | error e => rw [hml] at h; cases hml2 : cfgs.map QCfg.nbits with
                      | nil => simp [minList, hml2] at hml; cases h; simp at hml
                      | cons a l => simp [minList, hml2] at hml
                  | ok v => rw [hml] at h; cases h
                · split at h
                  · cases h
                  · simp at h


theorem ebind_ok {a b : Type} (x : a) (f : a → Except RUErr b) :
    Except.bind (Except.ok x) f = f x := rfl

theorem ebind_err {a b : Type} (e : RUErr) (f : a → Except RUErr b) :
    Except.bind (Except.error e : Except RUErr a) f = Except.error e := rfl

theorem check_w_qc_ok_of_known (n : BaseNode) (q : NodeWQC)
    (hq : ∀ a ∈ q.map Prod.fst, a ∈ n.weightAttrs) :
    check_w_qc n BitwidthMode.QCustom (some q) = .ok () := by
  have hany : ((q.map Prod.fst).any (fun a => decide (a ∉ n.weightAttrs))) = false := by
    apply List.any_eq_false.mpr
    intro a ha
    simpa using hq a ha
  simp only [check_w_qc]
  rw [if_neg (fun hc : BitwidthMode.QCustom ≠ BitwidthMode.QCustom => hc rfl), hany]
  rfl

theorem check_w_qc_unknown_of_missing (n : BaseNode) (q : NodeWQC)
    (hq : ∃ a ∈ q.map Prod.fst, a ∉ n.weightAttrs) :
    check_w_qc n BitwidthMode.QCustom (some q) = .error .unknownAttribute := by
  rcases hq with ⟨a, ha, hnot⟩
  have hany : ((q.map Prod.fst).any (fun a => decide (a ∉ n.weightAttrs))) = true :=
    List.any_eq_true.mpr ⟨a, ha, by simpa using hnot⟩
  simp only [check_w_qc]
  rw [if_neg (fun hc : BitwidthMode.QCustom ≠ BitwidthMode.QCustom => hc rfl), hany]
  rfl

theorem node_weight_attr_util_err {n : BaseNode} {mode : BitwidthMode}
    {qc : Option NodeWQC} {attr : String} {e : RUErr}
    (h : node_weight_attr_util n mode qc attr = .error e) :
    e = .keyError ∨ get_weight_nbits n attr mode qc = .error e := by
  unfold node_weight_attr_util at h
  split at h
  · cases h; exact Or.inl rfl
  · cases hnb : get_weight_nbits n attr mode qc with
    | error e2 => rw [hnb, ebind_err] at h; injection h with he; subst he; exact Or.inr rfl
    | ok v => rw [hnb, ebind_ok] at h; cases h

/-- **C9**: node weight utilization computation in QCustom mode fails with
`UnknownAttribute` whenever the custom config names a weight attribute the
node does not carry, and never fails with that error when every attribute
named in the config is carried by the node. -/
theorem unknown_attribute_detection (n : BaseNode) (spec : WSpec) (q : NodeWQC) :
    ((∃ a ∈ q.map Prod.fst, a ∉ n.weightAttrs) →
      compute_node_weights_utilization n spec BitwidthMode.QCustom (some q) =
        .error .unknownAttribute) ∧
    ((∀ a ∈ q.map Prod.fst, a ∈ n.weightAttrs) →
      compute_node_weights_utilization n spec BitwidthMode.QCustom (some q) ≠
        .error .unknownAttribute) := by
  constructor
  · intro hq
    unfold compute_node_weights_utilization
    rw [check_w_qc_unknown_of_missing n q hq]
    rfl
  · intro hq h
    unfold compute_node_weights_utilization at h
    rw [check_w_qc_ok_of_known n q hq] at h
    simp only [ebind_ok] at h
    cases hre : resolve_weight_attrs n spec with
    | error e =>
        rw [hre, ebind_err] at h
        cases h
        unfold resolve_weight_attrs at hre
        cases spec with
        | crit c => cases hre
        | attrs l =>
            cases hl2 : l.isEmpty
            · simp [hl2] at hre
            · simp [hl2] at hre
    | ok attrs =>
        rw [hre, ebind_ok] at h
        cases hm : mapE (node_weight_attr_util n BitwidthMode.QCustom (some q)) attrs with
        | error e =>
            rw [hm, ebind_err] at h
            cases h
            rcases mapE_error_exists _ hm with ⟨a, _, hfa⟩
            rcases node_weight_attr_util_err hfa with hk | hk
            · cases hk
            · exact get_weight_nbits_no_unknown n a BitwidthMode.QCustom (some q) hk
        | ok per => rw [hm, ebind_ok] at h; cases h

/-- Witness for C9: a config naming "missing" on the example conv node fails
with `UnknownAttribute`; a config naming only "kernel" does not. -/
theorem unknown_attribute_detection_witness :
    compute_node_weights_utilization exConv (WSpec.crit TargetInclusionCriterion.AnyQuantized)
      BitwidthMode.QCustom (some [("missing", qc8)]) = .error .unknownAttribute ∧
    compute_node_weights_utilization exConv (WSpec.crit TargetInclusionCriterion.AnyQuantized)
      BitwidthMode.QCustom (some [("kernel", qc4)]) ≠ .error .unknownAttribute :=
  ⟨(unknown_attribute_detection exConv (WSpec.crit TargetInclusionCriterion.AnyQuantized)
      [("missing", qc8)]).1 (by decide),
   (unknown_attribute_detection exConv (WSpec.crit TargetInclusionCriterion.AnyQuantized)
      [("kernel", qc4)]).2 (by decide)⟩


theorem collect_append_reused (g : Graph) (r : BaseNode) (crit : TargetInclusionCriterion)
    (hr : r.reuse = true) :
    collect_target_nodes_w_attrs ⟨g.nodes ++ [r], g.edges, g.cuts⟩ crit false =
      collect_target_nodes_w_attrs g crit false := by
  unfold collect_target_nodes_w_attrs
  simp only [List.filterMap_append]
  have h1 : (List.filterMap (fun n =>
      if !(target_weight_attrs n crit).isEmpty && (false || !n.reuse) then
        some (n, target_weight_attrs n crit)
      else none) [r]) = [] := by
    simp [hr]
  rw [h1, List.append_nil]

theorem mem_collect_reuse_false {g : Graph} {crit : TargetInclusionCriterion}
    {p : BaseNode × List String}
    (hp : p ∈ collect_target_nodes_w_attrs g crit false) : p.1.reuse = false := by
  unfold collect_target_nodes_w_attrs at hp
  rcases List.mem_filterMap.mp hp with ⟨x, _, hfx⟩
  split at hfx
  · cases hfx
    rename_i hcond
    simp at hcond
    exact hcond.2
  · cases hfx

theorem topo_sort_append_not_mem (g : Graph) (r : BaseNode) (E : List Edge)
    (C : List (List BaseNode)) (ns : List BaseNode) (hnm : r ∉ ns) :
    topo_sort ⟨g.nodes ++ [r], E, C⟩ ns = topo_sort g ns := by
  unfold topo_sort
  cases hne : ns.isEmpty
  · simp only [hne, Bool.false_eq_true, if_false]
    have hflt : List.filter (fun n => decide (n ∈ ns)) (g.nodes ++ [r]) =
        List.filter (fun n => decide (n ∈ ns)) g.nodes := by
      rw [List.filter_append]
      have : List.filter (fun n => decide (n ∈ ns)) [r] = [] := by
        simp [hnm]
      rw [this, List.append_nil]
    rw [hflt]
  · simp only [hne, if_true]

/-- **C8**: weights aggregation excludes reused nodes — appending a node
flagged `reuse` to the graph leaves the entire result of
`compute_weights_utilization` (in particular `weights_bytes`) unchanged. -/
theorem reused_node_does_not_change_weights (g : Graph) (r : BaseNode)
    (crit : TargetInclusionCriterion) (mode : BitwidthMode)
    (w_qcs : List (BaseNode × NodeWQC)) (hr : r.reuse = true) :
    compute_weights_utilization ⟨g.nodes ++ [r], g.edges, g.cuts⟩ crit mode w_qcs =
      compute_weights_utilization g crit mode w_qcs := by
  unfold compute_weights_utilization
  by_cases hq : ¬ w_qcs.isEmpty ∧ mode ≠ BitwidthMode.QCustom
  · rw [if_pos hq, if_pos hq]
  · rw [if_neg hq, if_neg hq]
    rw [collect_append_reused g r crit hr]
    have hnm : r ∉ (collect_target_nodes_w_attrs g crit false).map Prod.fst := by
      intro hmem
      rcases List.mem_map.mp hmem with ⟨p, hp, hpr⟩
      have := mem_collect_reuse_false hp
      rw [hpr] at this
      rw [this] at hr
      cases hr
    rw [topo_sort_append_not_mem g r g.edges g.cuts _ hnm]

/-- Witness for C8: appending the reused conv node to the tiny-chain graph
leaves the computed weights utilization unchanged. -/
theorem reused_node_does_not_change_weights_witness :
    compute_weights_utilization ⟨exGraph.nodes ++ [exConvReused], exGraph.edges, exGraph.cuts⟩
        TargetInclusionCriterion.AnyQuantized BitwidthMode.Q8Bit [] =
      compute_weights_utilization exGraph TargetInclusionCriterion.AnyQuantized
        BitwidthMode.Q8Bit [] :=
  reused_node_does_not_change_weights exGraph exConvReused
    TargetInclusionCriterion.AnyQuantized BitwidthMode.Q8Bit [] (by decide)

/-- **C6 (amended)**: every successful call populates exactly the requested
(normalized) targets and no others; whenever Total is among them, the
populated `total_memory` equals the weights bytes plus the peak activation
bytes, both computed internally from the same call's configs even when
Weights/Activation are not separately requested. -/
theorem target_population_and_total (g : Graph) (fw : Framework)
    (crit : TargetInclusionCriterion) (mode : BitwidthMode)
    (aq : List (BaseNode × QCfg)) (wq : List (BaseNode × NodeWQC))
    (ts0 : Option (List RUTarget)) (allow : Bool) (ru : ResourceUtilization)
    (h : compute_resource_utilization g fw crit mode aq wq ts0 allow = .ok ru) :
    sameTargetSet ru.get_restricted_targets (norm_targets ts0) = true ∧
    (RUTarget.Total ∈ norm_targets ts0 →
      ∃ w a r1 r2, compute_weights_utilization g crit mode wq = .ok (w, r1, r2) ∧
        compute_activations_utilization g crit mode aq = .ok a ∧
        ru.total_memory = some (w + a)) := by
  unfold compute_resource_utilization compute_ru_checked at h
  by_cases h1 : (¬ wq.isEmpty = true ∨ ¬ aq.isEmpty = true) ∧ mode ≠ BitwidthMode.QCustom
  · rw [if_pos h1] at h; cases h
  rw [if_neg h1] at h
  by_cases h2 : (w_unused_cond wq (norm_targets ts0) && !allow) = true
  · rw [if_pos h2] at h; cases h
  rw [if_neg h2] at h
  by_cases h3 : (act_unused_cond aq (norm_targets ts0) && !allow) = true
  · rw [if_pos h3] at h; cases h
  rw [if_neg h3] at h
  unfold compute_ru_core at h
  cases hW : (if (norm_targets ts0).any
        (fun t => t == RUTarget.Weights || t == RUTarget.Total) then
      (compute_weights_utilization g crit mode
        (if w_unused_cond wq (norm_targets ts0) then [] else wq)).bind
          (fun r => Except.ok (some r.1))
    else Except.ok none) with
  | error e => rw [hW, ebind_err] at h; cases h
  | ok w_total =>
  rw [hW, ebind_ok] at h
  cases hA : (if (norm_targets ts0).any
        (fun t => t == RUTarget.Activation || t == RUTarget.Total) then
      (compute_activations_utilization g crit mode
        (if act_unused_cond aq (norm_targets ts0) then [] else aq)).bind
          (fun r => Except.ok (some r))
    else Except.ok none) with
  | error e => rw [hA, ebind_err] at h; cases h
  | ok a_total =>
  rw [hA, ebind_ok] at h
  cases hB : (if (norm_targets ts0).contains RUTarget.BOPS then
      (compute_bops g fw crit mode
        (if act_unused_cond aq (norm_targets ts0) then [] else aq)
        (if w_unused_cond wq (norm_targets ts0) then [] else wq)).bind
          (fun r => Except.ok (some r.1))
    else Except.ok none) with
  | error e => rw [hB, ebind_err] at h; cases h
  | ok bops_val =>
  rw [hB, ebind_ok] at h
  cases hT : (if (norm_targets ts0).contains RUTarget.Total then
      match w_total, a_total with
      | some w, some a => Except.ok (some (w + a))
      | _, _ => (Except.error RUErr.internal : Except RUErr (Option ℚ))
    else Except.ok none) with
  | error e => rw [hT, ebind_err] at h; cases h
  | ok total_val =>
  rw [hT, ebind_ok] at h
  unfold finalize_ru at h
  by_cases hs : ¬ (sameTargetSet
      (ResourceUtilization.mk
        (if (norm_targets ts0).contains RUTarget.Weights then w_total else none)
        (if (norm_targets ts0).contains RUTarget.Activation then a_total else none)
        total_val bops_val).get_restricted_targets (norm_targets ts0) = true)
  · rw [if_pos hs] at h; cases h
  rw [if_neg hs] at h
  cases h
  constructor
  · exact Classical.byContradiction (fun hc => hs (fun ht => hc ht))
  · intro hTot
    have hw_unused : w_unused_cond wq (norm_targets ts0) = false := by
      have hx : ((norm_targets ts0).any fun t =>
          t == RUTarget.Weights || t == RUTarget.Total || t == RUTarget.BOPS) = true :=
        List.any_eq_true.mpr ⟨RUTarget.Total, hTot, by simp⟩
      simp [w_unused_cond, hx]
    have ha_unused : act_unused_cond aq (norm_targets ts0) = false := by
      have hx : ((norm_targets ts0).any fun t =>
          t == RUTarget.Activation || t == RUTarget.Total || t == RUTarget.BOPS) = true :=
        List.any_eq_true.mpr ⟨RUTarget.Total, hTot, by simp⟩
      simp [act_unused_cond, hx]
    have hanyW : ((norm_targets ts0).any
        (fun t => t == RUTarget.Weights || t == RUTarget.Total)) = true :=
      List.any_eq_true.mpr ⟨RUTarget.Total, hTot, by simp⟩
    have hanyA : ((norm_targets ts0).any
        (fun t => t == RUTarget.Activation || t == RUTarget.Total)) = true :=
      List.any_eq_true.mpr ⟨RUTarget.Total, hTot, by simp⟩
    have hconT : (norm_targets ts0).contains RUTarget.Total = true := by
      simpa using hTot
    rw [if_pos hanyW, hw_unused] at hW
    rw [if_pos hanyA, ha_unused] at hA
    rw [if_pos hconT] at hT
    simp only [Bool.false_eq_true, if_false] at hW hA
    cases hw2 : compute_weights_utilization g crit mode wq with
    | error e => rw [hw2, ebind_err] at hW; cases hW
    | ok r =>
        rw [hw2, ebind_ok] at hW
        cases hW
        cases ha2 : compute_activations_utilization g crit mode aq with
        | error e => rw [ha2, ebind_err] at hA; cases hA
        | ok a =>
            rw [ha2, ebind_ok] at hA
            cases hA
            cases hT
            exact ⟨r.1, a, r.2.1, r.2.2, rfl, rfl, rfl⟩

theorem gW_weights : compute_weights_utilization gW TargetInclusionCriterion.AnyQuantized
    BitwidthMode.Q8Bit [] = .ok (8, [(wNode, ⟨8, 8⟩)], [(wNode, [("k", ⟨8, 8⟩)])]) := by
  have hcol : collect_target_nodes_w_attrs gW TargetInclusionCriterion.AnyQuantized false =
      [(wNode, ["k"])] := by decide
  have htopo : topo_sort gW [wNode] = .ok [wNode] := by decide
  have hnb : get_weight_nbits wNode "k" BitwidthMode.Q8Bit none = .ok 8 := by decide
  unfold compute_weights_utilization
  rw [if_neg (by simp), hcol]
  simp only [List.map_cons, List.map_nil]
  rw [htopo, ebind_ok]
  simp [mapE, node_weights_entry, compute_node_weights_utilization, check_w_qc,
    resolve_weight_attrs, node_weight_attr_util, alookup, hnb, sumUtil, Utilization.add,
    ebind_ok, ebind_err, except_bind_ok, except_bind_err, pure_bind]

theorem gW_bycut : compute_activation_utilization_by_cut gW
    TargetInclusionCriterion.AnyQuantized BitwidthMode.Q8Bit [] =
    .ok (4, [([wNode], ⟨4, 4⟩)], [([wNode], [(wNode, ⟨4, 4⟩)])]) := by
  have hded : dedupBy (fun n => n)
      (target_activation_nodes TargetInclusionCriterion.AnyQuantized true [wNode]) =
      [wNode] := by decide
  have hskip : skip_by_criterion (some TargetInclusionCriterion.AnyQuantized) wNode = false := by
    decide
  have hga : get_activation_nbits wNode BitwidthMode.Q8Bit none = .ok 8 := by decide
  have hpc : process_cut TargetInclusionCriterion.AnyQuantized BitwidthMode.Q8Bit [] [wNode] =
      .ok (some ([wNode], ⟨4, 4⟩, [(wNode, ⟨4, 4⟩)])) := by
    unfold process_cut
    rw [hded]
    simp [compute_node_activation_tensor_utilization, hskip, hga, alookup, mapE, sumUtil,
      Utilization.add, ebind_ok, except_bind_ok, except_bind_err, pure_bind]
    norm_num [wNode]
  have hflt : gW.cuts.filter (fun c => !c.isEmpty) = [[wNode]] := by decide
  unfold compute_activation_utilization_by_cut
  rw [if_neg (by simp), if_neg (by decide), hflt]
  simp [mapE, hpc, ebind_ok, except_bind_ok, except_bind_err, pure_bind, maxUtilList]

theorem gW_acts : compute_activations_utilization gW TargetInclusionCriterion.AnyQuantized
    BitwidthMode.Q8Bit [] = .ok 4 := by
  unfold compute_activations_utilization
  rw [gW_bycut]
  rfl

/-- Counterexample for C6: requesting only `Total` succeeds — the code does
not require Weights and Activation to also be requested (it computes them
internally), contradicting the claim's "the caller must also request Weights
and Activation". -/
theorem total_without_parts_counterexample :
    compute_resource_utilization gW fwW TargetInclusionCriterion.AnyQuantized
      BitwidthMode.Q8Bit [] [] (some [RUTarget.Total]) false =
      .ok { weights_memory := none, activation_memory := none,
            total_memory := some 12, bops := none } := by
  unfold compute_resource_utilization compute_ru_checked compute_ru_core
  simp [gW_weights, gW_acts, norm_targets, w_unused_cond, act_unused_cond, finalize_ru,
    ebind_ok, ebind_err, sameTargetSet, allRUTargets, ResourceUtilization.get_restricted_targets]
  norm_num

/-- Witness for C6 (amended): at the single-node graph with `targets={Total}`,
only `total_memory` is populated and it equals weights (8) plus peak
activation (4) bytes. -/
theorem target_population_and_total_witness :
    sameTargetSet (ResourceUtilization.mk none none (some 12) none).get_restricted_targets
        (norm_targets (some [RUTarget.Total])) = true ∧
    (RUTarget.Total ∈ norm_targets (some [RUTarget.Total]) →
      ∃ w a r1 r2, compute_weights_utilization gW TargetInclusionCriterion.AnyQuantized
          BitwidthMode.Q8Bit [] = .ok (w, r1, r2) ∧
        compute_activations_utilization gW TargetInclusionCriterion.AnyQuantized
          BitwidthMode.Q8Bit [] = .ok a ∧
        (ResourceUtilization.mk none none (some 12) none).total_memory = some (w + a)) :=
  target_population_and_total gW fwW TargetInclusionCriterion.AnyQuantized BitwidthMode.Q8Bit
    [] [] (some [RUTarget.Total]) false ⟨none, none, some 12, none⟩
    (by
      unfold compute_resource_utilization compute_ru_checked compute_ru_core
      simp [gW_weights, gW_acts, norm_targets, w_unused_cond, act_unused_cond, finalize_ru,
        ebind_ok, ebind_err, sameTargetSet, allRUTargets,
        ResourceUtilization.get_restricted_targets]
      norm_num)


theorem map_fst_filterMap_if {α β : Type} (p : α → Bool) (h : α → β) :
    ∀ l : List α,
      ((l.filterMap (fun n => if p n then some (n, h n) else none)).map Prod.fst) =
        l.filter p := by
  intro l
  induction l with
  | nil => rfl
  | cons x xs ih =>
      cases hp : p x
      · simp only [List.filterMap_cons, List.filter_cons, hp, Bool.false_eq_true, if_false]
        exact ih
      · simp only [List.filterMap_cons, List.filter_cons, hp, if_true, List.map_cons]
        rw [ih]

theorem collect_true_simp (g : Graph) (crit : TargetInclusionCriterion) :
    collect_target_nodes_w_attrs g crit true =
      g.nodes.filterMap (fun n =>
        if !(target_weight_attrs n crit).isEmpty then
          some (n, target_weight_attrs n crit)
        else none) := by
  unfold collect_target_nodes_w_attrs
  simp

theorem bops_selection_eq (g : Graph) (fw : Framework) :
    ((collect_target_nodes_w_attrs g TargetInclusionCriterion.AnyQuantized true).map
        Prod.fst).filter (fun n => has_kernel_weight_to_quantize fw n) =
      bops_target_nodes g fw := by
  rw [collect_true_simp, map_fst_filterMap_if]
  unfold bops_target_nodes
  rw [List.filter_filter]
  apply List.filter_congr
  intro x _
  rw [Bool.and_comm]

theorem mapE_bops_entries {g : Graph} {fw : Framework} {mode : BitwidthMode}
    {aq : List (BaseNode × QCfg)} {wq : List (BaseNode × NodeWQC)} :
    ∀ {nodes : List BaseNode} {detail : List (BaseNode × ℕ)},
      mapE (node_bops_entry g fw mode aq wq) nodes = .ok detail →
      detail.map Prod.fst = nodes ∧
        ∀ p ∈ detail, compute_node_bops g fw p.1 mode aq (alookup wq p.1) = .ok p.2 := by
  intro nodes
  induction nodes with
  | nil =>
      intro detail h
      cases h
      exact ⟨rfl, fun p hp => absurd hp (List.not_mem_nil p)⟩
  | cons x xs ih =>
      intro detail h
      simp only [mapE] at h
      cases hx : node_bops_entry g fw mode aq wq x with
      | error e => rw [hx, except_bind_err] at h; cases h
      | ok y =>
          rw [hx, except_bind_ok] at h
          cases hxs : mapE (node_bops_entry g fw mode aq wq) xs with
          | error e => rw [hxs, except_bind_err] at h; cases h
          | ok ys =>
              rw [hxs, except_bind_ok] at h
              cases h
              unfold node_bops_entry at hx
              cases hnb : compute_node_bops g fw x mode aq (alookup wq x) with
              | error e => rw [hnb, ebind_err] at hx; cases hx
              | ok b =>
                  rw [hnb, ebind_ok] at hx
                  cases hx
                  rcases ih hxs with ⟨h1, h2⟩
                  refine ⟨by rw [List.map_cons, h1], ?_⟩
                  intro p hp
                  rcases List.mem_cons.mp hp with h3 | h3
                  · subst h3; exact hnb
                  · exact h2 p h3

theorem compute_node_bops_cases {g : Graph} {fw : Framework} {n : BaseNode}
    {mode : BitwidthMode} {aq : List (BaseNode × QCfg)} {wqc : Option NodeWQC} {b : ℕ}
    (h : compute_node_bops g fw n mode aq wqc = .ok b) :
    (fw.mac n = 0 → b = 0) ∧
    (incoming_edges g n = [] → b = 0) ∧
    (∀ e, incoming_edges g n = [e] → fw.mac n ≠ 0 →
      ∃ a w ka, fw.kernel_op_attrs n.typ = [ka] ∧
        get_activation_nbits e.source mode (alookup aq e.source) = .ok a ∧
        get_weight_nbits n ka mode wqc = .ok w ∧
        b = a * w * fw.mac n) ∧
    (2 ≤ (incoming_edges g n).length → fw.mac n = 0) := by
  unfold compute_node_bops at h
  by_cases hm : fw.mac n = 0
  · rw [if_pos hm] at h
    cases h
    exact ⟨fun _ => rfl, fun _ => rfl, fun e _ hmn => absurd hm hmn, fun _ => hm⟩
  · rw [if_neg hm] at h
    split at h
    · rename_i heq
      cases h
      refine ⟨fun h0 => absurd h0 hm, fun _ => rfl, ?_, ?_⟩
      · intro e he
        rw [heq] at he
        cases he
      · intro hlen
        rw [heq] at hlen
        simp at hlen
    · rename_i e heq
      refine ⟨fun h0 => absurd h0 hm, ?_, ?_, ?_⟩
      · intro he
        rw [heq] at he
        cases he
      · intro e2 he2 _
        rw [heq] at he2
        cases he2
        cases ha : get_activation_nbits e.source mode (alookup aq e.source) with
        | error er => rw [ha, ebind_err] at h; cases h
        | ok a =>
            rw [ha, ebind_ok] at h
            by_cases hk : (fw.kernel_op_attrs n.typ).length > 1
            · rw [if_pos hk] at h; cases h
            · rw [if_neg hk] at h
              split at h
              · cases h
              · rename_i ka krest hka
                cases hw : get_weight_nbits n ka mode wqc with
                | error er => rw [hw, ebind_err] at h; cases h
                | ok w =>
                    rw [hw, ebind_ok] at h
                    cases h
                    have hkr : krest = [] := by
                      cases krest with
                      | nil => rfl
                      | cons k2 ks =>
                          exfalso
                          apply hk
                          rw [hka]
                          simp
                    subst hkr
                    exact ⟨a, w, ka, hka, rfl, hw, rfl⟩
      · intro hlen
        rw [heq] at hlen
        simp at hlen
    · rename_i hne heq
      cases h


/-- Counterexample for C5: in the graph whose only kernel-carrying node has
all weight-attribute quantization disabled, `compute_bops` selects nothing and
returns 0, although the node carries a kernel weight attribute, has nonzero
MACs, and its own per-node BOPS term is nonzero — so the selection is not
"exactly the nodes that carry a kernel weight attribute". -/
theorem bops_selection_counterexample :
    compute_bops exGraphDis exFwDis TargetInclusionCriterion.AnyQuantized BitwidthMode.Q8Bit
        [] [] = .ok (0, []) ∧
    has_kernel_weight_to_quantize exFwDis exConvDis = true ∧
    exFwDis.mac exConvDis ≠ 0 ∧
    compute_node_bops exGraphDis exFwDis exConvDis BitwidthMode.Q8Bit [] none =
      .ok 100663296 := by
  decide

/-- **C5 (amended)**: BOPS fails with NotSupported for every criterion other
than AnyQuantized; for AnyQuantized it selects exactly the nodes that have at
least one quantization-enabled weight attribute **and** carry a kernel weight
attribute; per selected node, zero MACs contribute zero, no incoming edge
contributes zero, a single incoming edge yields
`activation_nbits × kernel_nbits × mac`, and (assert) a selected node with
two or more incoming edges forces zero MACs (otherwise the call fails);
the total is the sum over selected nodes. -/
theorem bops_computation (g : Graph) (fw : Framework) (mode : BitwidthMode)
    (act_qcs : List (BaseNode × QCfg)) (w_qcs : List (BaseNode × NodeWQC)) :
    (∀ crit, crit ≠ TargetInclusionCriterion.AnyQuantized →
      compute_bops g fw crit mode act_qcs w_qcs = .error .notSupported) ∧
    (∀ total detail,
      compute_bops g fw TargetInclusionCriterion.AnyQuantized mode act_qcs w_qcs =
        .ok (total, detail) →
      detail.map Prod.fst = bops_target_nodes g fw ∧
      total = (detail.map Prod.snd).sum ∧
      ∀ p ∈ detail,
        (fw.mac p.1 = 0 → p.2 = 0) ∧
        (incoming_edges g p.1 = [] → p.2 = 0) ∧
        (∀ e, incoming_edges g p.1 = [e] → fw.mac p.1 ≠ 0 →
          ∃ a w ka, fw.kernel_op_attrs p.1.typ = [ka] ∧
            get_activation_nbits e.source mode (alookup act_qcs e.source) = .ok a ∧
            get_weight_nbits p.1 ka mode (alookup w_qcs p.1) = .ok w ∧
            p.2 = a * w * fw.mac p.1) ∧
        (2 ≤ (incoming_edges g p.1).length → fw.mac p.1 = 0)) := by
  constructor
  · intro crit hc
    unfold compute_bops
    rw [if_pos hc]
  · intro total detail h
    unfold compute_bops at h
    rw [if_neg (fun hc : TargetInclusionCriterion.AnyQuantized ≠
        TargetInclusionCriterion.AnyQuantized => hc rfl)] at h
    cases hme : mapE (node_bops_entry g fw mode act_qcs w_qcs)
        (((collect_target_nodes_w_attrs g TargetInclusionCriterion.AnyQuantized true).map
            Prod.fst).filter (fun n => has_kernel_weight_to_quantize fw n)) with
    | error e => rw [hme, ebind_err] at h; cases h
    | ok detail2 =>
        rw [hme, ebind_ok] at h
        cases h
        rcases mapE_bops_entries hme with ⟨h1, h2⟩
        rw [bops_selection_eq] at h1
        refine ⟨h1, rfl, ?_⟩
        intro p hp
        exact compute_node_bops_cases (h2 p hp)

/-- Witness for C5 (amended): a non-AnyQuantized criterion is rejected, and
on the minimal mixed-precision graph the selection, per-node term
(8 × 8 × 2 = 128) and total are as stated. -/
theorem bops_computation_witness :
    compute_bops gMP fwMP TargetInclusionCriterion.QConfigurable BitwidthMode.Q8Bit [] [] =
      .error .notSupported ∧
    ([((mNode : BaseNode), (128 : ℕ))].map Prod.fst = bops_target_nodes gMP fwMP ∧
      (128 : ℕ) = ([((mNode : BaseNode), (128 : ℕ))].map Prod.snd).sum ∧
      ∀ p ∈ [((mNode : BaseNode), (128 : ℕ))],
        (fwMP.mac p.1 = 0 → p.2 = 0) ∧
        (incoming_edges gMP p.1 = [] → p.2 = 0) ∧
        (∀ e, incoming_edges gMP p.1 = [e] → fwMP.mac p.1 ≠ 0 →
          ∃ a w ka, fwMP.kernel_op_attrs p.1.typ = [ka] ∧
            get_activation_nbits e.source BitwidthMode.Q8Bit (alookup [] e.source) = .ok a ∧
            get_weight_nbits p.1 ka BitwidthMode.Q8Bit (alookup [] p.1) = .ok w ∧
            p.2 = a * w * fwMP.mac p.1) ∧
        (2 ≤ (incoming_edges gMP p.1).length → fwMP.mac p.1 = 0)) :=
  ⟨(bops_computation gMP fwMP BitwidthMode.Q8Bit [] []).1
      TargetInclusionCriterion.QConfigurable (by decide),
   (bops_computation gMP fwMP BitwidthMode.Q8Bit [] []).2 128 [(mNode, 128)] (by decide)⟩

/-- Counterexample for C10: a reused node that carries a kernel weight
attribute, has 2 MACs and a single incoming edge, but whose weight
quantization is disabled on every attribute, is excluded from the BOPS
selection — `compute_bops` returns total 0 with an empty detail map, so the
node does not contribute its `mac × activation_bits × kernel_bits` term. -/
theorem reused_disabled_node_bops_counterexample :
    mNodeRD.reuse = true ∧
    has_kernel_weight_to_quantize fwRD mNodeRD = true ∧
    fwRD.mac mNodeRD = 2 ∧
    incoming_edges gRD mNodeRD = [Edge.mk iNode 0 mNodeRD 0] ∧
    compute_bops gRD fwRD TargetInclusionCriterion.AnyQuantized BitwidthMode.Q8Bit [] [] =
      .ok (0, []) := by
  refine ⟨by decide, by decide, by decide, by decide, by decide⟩

/-- **C10 (amended)**: `compute_bops` collects its target nodes with
`include_reused=true` — a reused node carrying a kernel weight attribute,
with at least one quantization-enabled weight attribute, nonzero MACs and
a single incoming edge contributes its full
`mac × activation_bits × kernel_bits` term to the total BOPS; reused nodes
are counted in BOPS even though they are excluded from weights memory. -/
theorem reused_nodes_counted_in_bops (g : Graph) (fw : Framework) (mode : BitwidthMode)
    (act_qcs : List (BaseNode × QCfg)) (w_qcs : List (BaseNode × NodeWQC))
    (n : BaseNode) (e : Edge) (total : ℕ) (detail : List (BaseNode × ℕ))
    (hok : compute_bops g fw TargetInclusionCriterion.AnyQuantized mode act_qcs w_qcs =
      .ok (total, detail))
    (hmem : n ∈ g.nodes) (hreuse : n.reuse = true)
    (hattrs : (target_weight_attrs n TargetInclusionCriterion.AnyQuantized).isEmpty = false)
    (hker : has_kernel_weight_to_quantize fw n = true)
    (hmac : fw.mac n ≠ 0) (hinc : incoming_edges g n = [e]) :
    ∃ a w ka b, fw.kernel_op_attrs n.typ = [ka] ∧
      get_activation_nbits e.source mode (alookup act_qcs e.source) = .ok a ∧
      get_weight_nbits n ka mode (alookup w_qcs n) = .ok w ∧
      b = a * w * fw.mac n ∧ (n, b) ∈ detail ∧
      total = (detail.map Prod.snd).sum := by
  unfold compute_bops at hok
  rw [if_neg (fun hc : TargetInclusionCriterion.AnyQuantized ≠
      TargetInclusionCriterion.AnyQuantized => hc rfl)] at hok
  cases hme : mapE (node_bops_entry g fw mode act_qcs w_qcs)
      (((collect_target_nodes_w_attrs g TargetInclusionCriterion.AnyQuantized true).map
          Prod.fst).filter (fun n => has_kernel_weight_to_quantize fw n)) with
  | error er => rw [hme, ebind_err] at hok; cases hok
  | ok detail2 =>
      rw [hme, ebind_ok] at hok
      cases hok
      rcases mapE_bops_entries hme with ⟨h1, h2⟩
      rw [bops_selection_eq] at h1
      have hsel : n ∈ bops_target_nodes g fw := by
        unfold bops_target_nodes
        refine List.mem_filter.mpr ⟨hmem, ?_⟩
        simp [hattrs, hker]
      rw [← h1] at hsel
      rcases List.mem_map.mp hsel with ⟨p, hp, hpn⟩
      have hcb := h2 p hp
      rw [hpn] at hcb
      rcases (compute_node_bops_cases hcb).2.2.1 e hinc hmac with ⟨a, w, ka, hka, ha, hw, hb⟩
      refine ⟨a, w, ka, a * w * fw.mac n, hka, ha, hw, rfl, ?_, rfl⟩
      have : p = (n, p.2) := by
        cases p
        simp at hpn
        rw [hpn]
      rw [this, hb] at hp
      exact hp

/-- Witness for C10: in the graph whose only kernel node is reused with 2
MACs, that node contributes 8 × 8 × 2 = 128 to the total BOPS. -/
theorem reused_nodes_counted_in_bops_witness :
    ∃ a w ka b, fwR.kernel_op_attrs mNodeR.typ = [ka] ∧
      get_activation_nbits (Edge.mk iNode 0 mNodeR 0).source BitwidthMode.Q8Bit
        (alookup [] (Edge.mk iNode 0 mNodeR 0).source) = .ok a ∧
      get_weight_nbits mNodeR ka BitwidthMode.Q8Bit (alookup [] mNodeR) = .ok w ∧
      b = a * w * fwR.mac mNodeR ∧ (mNodeR, b) ∈ [((mNodeR : BaseNode), (128 : ℕ))] ∧
      (128 : ℕ) = ([((mNodeR : BaseNode), (128 : ℕ))].map Prod.snd).sum :=
  reused_nodes_counted_in_bops gR fwR BitwidthMode.Q8Bit [] [] mNodeR
    (Edge.mk iNode 0 mNodeR 0) 128 [(mNodeR, 128)]
    (by decide) (by decide) (by decide) (by decide) (by decide) (by decide) (by decide)

/-! ### C7: QMaxBit / QMinBit monotonicity -/

theorem mapE_rel {a b : Type} {f g : a → Except RUErr b} {R : b → b → Prop}
    (hfg : ∀ x y z, f x = .ok y → g x = .ok z → R y z) :
    ∀ {l : List a} {ys zs : List b}, mapE f l = .ok ys → mapE g l = .ok zs →
      List.Forall₂ R ys zs := by
  intro l
  induction l with
  | nil =>
      intro ys zs h1 h2
      simp only [mapE] at h1 h2
      injection h1 with h1
      injection h2 with h2
      subst h1; subst h2
      exact List.Forall₂.nil
  | cons x xs ih =>
      intro ys zs h1 h2
      simp only [mapE] at h1 h2
      cases hf : f x with
      | error e => rw [hf, except_bind_err] at h1; exact Except.noConfusion h1
      | ok y =>
          rw [hf, except_bind_ok] at h1
          cases hg : g x with
          | error e => rw [hg, except_bind_err] at h2; exact Except.noConfusion h2
          | ok z =>
              rw [hg, except_bind_ok] at h2
              cases hm1 : mapE f xs with
              | error e => rw [hm1, except_bind_err] at h1; exact Except.noConfusion h1
              | ok ys2 =>
                  rw [hm1, except_bind_ok] at h1
                  cases hm2 : mapE g xs with
                  | error e => rw [hm2, except_bind_err] at h2; exact Except.noConfusion h2
                  | ok zs2 =>
                      rw [hm2, except_bind_ok] at h2
                      injection h1 with h1
                      injection h2 with h2
                      subst h1; subst h2
                      exact List.Forall₂.cons (hfg x y z hf hg) (ih hm1 hm2)

theorem forall2_map_map {a b c : Type} (R : a → b → Prop) (S : c → c → Prop)
    (f : a → c) (g : b → c) (hRS : ∀ x y, R x y → S (g y) (f x)) :
    ∀ {l1 : List a} {l2 : List b}, List.Forall₂ R l1 l2 →
      List.Forall₂ S (l2.map g) (l1.map f) := by
  intro l1 l2 h
  induction h with
  | nil => exact List.Forall₂.nil
  | cons hxy htail ih =>
      simp only [List.map_cons]
      exact List.Forall₂.cons (hRS _ _ hxy) ih

theorem nat_sum_le_of_forall2 :
    ∀ {l1 l2 : List ℕ}, List.Forall₂ (fun x y => x ≤ y) l1 l2 → l1.sum ≤ l2.sum := by
  intro l1 l2 h
  induction h with
  | nil => exact le_refl 0
  | cons hxy htail ih =>
      simp only [List.sum_cons]
      exact Nat.add_le_add hxy ih

theorem act_nbits_mono (n : BaseNode) {a1 a2 : ℕ}
    (h1 : get_activation_nbits n BitwidthMode.QMaxBit none = .ok a1)
    (h2 : get_activation_nbits n BitwidthMode.QMinBit none = .ok a2) : a2 ≤ a1 := by
  by_cases hen : n.is_activation_quantization_enabled = true
  · simp [get_activation_nbits, hen] at h1 h2
    obtain ⟨hmem2, -⟩ := minList_ok h2
    obtain ⟨-, hub⟩ := maxList_ok h1
    exact hub _ hmem2
  · simp [get_activation_nbits, hen, FLOAT_BITWIDTH] at h1 h2
    omega

theorem weight_nbits_mono (n : BaseNode) (attr : String) {w1 w2 : ℕ}
    (h1 : get_weight_nbits n attr BitwidthMode.QMaxBit none = .ok w1)
    (h2 : get_weight_nbits n attr BitwidthMode.QMinBit none = .ok w2) : w2 ≤ w1 := by
  by_cases hen : n.is_weights_quantization_enabled attr = true
  · simp [get_weight_nbits, hen] at h1 h2
    cases hmE : mapE (fun c => get_attr_config c attr) (n.get_unique_weights_candidates attr) with
    | error e =>
        rw [hmE, except_bind_err] at h1
        exact Except.noConfusion h1
    | ok cfgs =>
        rw [hmE, except_bind_ok] at h1
        rw [hmE, except_bind_ok] at h2
        obtain ⟨hmem2, -⟩ := minList_ok h2
        obtain ⟨-, hub⟩ := maxList_ok h1
        exact hub _ hmem2
  · simp [get_weight_nbits, hen, FLOAT_BITWIDTH] at h1 h2
    omega

theorem node_weight_attr_util_mono (n : BaseNode) (attr : String)
    {p1 p2 : String × Utilization}
    (h1 : node_weight_attr_util n BitwidthMode.QMaxBit none attr = .ok p1)
    (h2 : node_weight_attr_util n BitwidthMode.QMinBit none attr = .ok p2) :
    p2.2.bytes ≤ p1.2.bytes := by
  unfold node_weight_attr_util at h1 h2
  cases hl : alookup n.weights attr with
  | none => simp [hl] at h1
  | some size =>
      simp only [hl] at h1 h2
      cases hw1 : get_weight_nbits n attr BitwidthMode.QMaxBit none with
      | error e => rw [hw1, ebind_err] at h1; exact Except.noConfusion h1
      | ok w1 =>
          cases hw2 : get_weight_nbits n attr BitwidthMode.QMinBit none with
          | error e => rw [hw2, ebind_err] at h2; exact Except.noConfusion h2
          | ok w2 =>
              rw [hw1, ebind_ok] at h1
              rw [hw2, ebind_ok] at h2
              injection h1 with h1
              injection h2 with h2
              subst h1; subst h2
              have hw : w2 ≤ w1 := weight_nbits_mono n attr hw1 hw2
              show (size : ℚ) * w2 / 8 ≤ (size : ℚ) * w1 / 8
              have hmul : (size : ℚ) * w2 ≤ (size : ℚ) * w1 :=
                mul_le_mul_of_nonneg_left (by exact_mod_cast hw) (by positivity)
              linarith

theorem node_weights_util_mono (n : BaseNode) (spec : WSpec)
    {r1 r2 : Utilization × List (String × Utilization)}
    (h1 : compute_node_weights_utilization n spec BitwidthMode.QMaxBit none = .ok r1)
    (h2 : compute_node_weights_utilization n spec BitwidthMode.QMinBit none = .ok r2) :
    r2.1.bytes ≤ r1.1.bytes := by
  unfold compute_node_weights_utilization at h1 h2
  simp only [check_w_qc, ebind_ok] at h1 h2
  cases hra : resolve_weight_attrs n spec with
  | error e => rw [hra, ebind_err] at h1; exact Except.noConfusion h1
  | ok attrs =>
      rw [hra, ebind_ok] at h1
      rw [hra, ebind_ok] at h2
      cases hm1 : mapE (node_weight_attr_util n BitwidthMode.QMaxBit none) attrs with
      | error e => rw [hm1, ebind_err] at h1; exact Except.noConfusion h1
      | ok au1 =>
          cases hm2 : mapE (node_weight_attr_util n BitwidthMode.QMinBit none) attrs with
          | error e => rw [hm2, ebind_err] at h2; exact Except.noConfusion h2
          | ok au2 =>
              rw [hm1, ebind_ok] at h1
              rw [hm2, ebind_ok] at h2
              injection h1 with h1
              injection h2 with h2
              subst h1; subst h2
              have hf : List.Forall₂
                  (fun p q : String × Utilization => q.2.bytes ≤ p.2.bytes) au1 au2 :=
                mapE_rel (fun attr y z hy hz => node_weight_attr_util_mono n attr hy hz) hm1 hm2
              exact sumUtil_bytes_mono
                (forall2_map_map (fun p q : String × Utilization => q.2.bytes ≤ p.2.bytes)
                  (fun u v : Utilization => u.bytes ≤ v.bytes) Prod.snd Prod.snd
                  (fun p q h => h) hf)

theorem node_weights_entry_mono (na : List (BaseNode × List String)) (n : BaseNode)
    {e1 e2 : BaseNode × (Utilization × List (String × Utilization))}
    (h1 : node_weights_entry na BitwidthMode.QMaxBit [] n = .ok e1)
    (h2 : node_weights_entry na BitwidthMode.QMinBit [] n = .ok e2) :
    e2.2.1.bytes ≤ e1.2.1.bytes := by
  unfold node_weights_entry at h1 h2
  cases hl : alookup na n with
  | none => simp [hl] at h1
  | some attrs =>
      simp only [hl, alookup] at h1 h2
      cases hc1 : compute_node_weights_utilization n (WSpec.attrs attrs)
          BitwidthMode.QMaxBit none with
      | error e => rw [hc1, ebind_err] at h1; exact Except.noConfusion h1
      | ok w1 =>
          cases hc2 : compute_node_weights_utilization n (WSpec.attrs attrs)
              BitwidthMode.QMinBit none with
          | error e => rw [hc2, ebind_err] at h2; exact Except.noConfusion h2
          | ok w2 =>
              rw [hc1, ebind_ok] at h1
              rw [hc2, ebind_ok] at h2
              injection h1 with h1
              injection h2 with h2
              subst h1; subst h2
              exact node_weights_util_mono n (WSpec.attrs attrs) hc1 hc2

theorem weights_util_mono (g : Graph) (crit : TargetInclusionCriterion)
    {r1 r2 : ℚ × List (BaseNode × Utilization) × List (BaseNode × List (String × Utilization))}
    (h1 : compute_weights_utilization g crit BitwidthMode.QMaxBit [] = .ok r1)
    (h2 : compute_weights_utilization g crit BitwidthMode.QMinBit [] = .ok r2) :
    r2.1 ≤ r1.1 := by
  unfold compute_weights_utilization at h1 h2
  rw [if_neg (by simp)] at h1
  rw [if_neg (by simp)] at h2
  cases ht : topo_sort g ((collect_target_nodes_w_attrs g crit false).map Prod.fst) with
  | error e => rw [ht, ebind_err] at h1; exact Except.noConfusion h1
  | ok topo =>
      rw [ht, ebind_ok] at h1
      rw [ht, ebind_ok] at h2
      cases hm1 : mapE (node_weights_entry (collect_target_nodes_w_attrs g crit false)
          BitwidthMode.QMaxBit []) topo with
      | error e => rw [hm1, ebind_err] at h1; exact Except.noConfusion h1
      | ok per1 =>
          cases hm2 : mapE (node_weights_entry (collect_target_nodes_w_attrs g crit false)
              BitwidthMode.QMinBit []) topo with
          | error e => rw [hm2, ebind_err] at h2; exact Except.noConfusion h2
          | ok per2 =>
              rw [hm1, ebind_ok] at h1
              rw [hm2, ebind_ok] at h2
              injection h1 with h1
              injection h2 with h2
              subst h1; subst h2
              have hf : List.Forall₂
                  (fun y z : BaseNode × (Utilization × List (String × Utilization)) =>
                    z.2.1.bytes ≤ y.2.1.bytes) per1 per2 :=
                mapE_rel (fun n y z hy hz =>
                  node_weights_entry_mono (collect_target_nodes_w_attrs g crit false) n hy hz)
                  hm1 hm2
              exact sumUtil_bytes_mono
                (forall2_map_map
                  (fun y z : BaseNode × (Utilization × List (String × Utilization)) =>
                    z.2.1.bytes ≤ y.2.1.bytes)
                  (fun u v : Utilization => u.bytes ≤ v.bytes)
                  (fun x => x.2.1) (fun x => x.2.1) (fun x y h => h) hf)

theorem act_tensor_util_mono (n : BaseNode) (crit : TargetInclusionCriterion)
    {u1 u2 : Utilization}
    (h1 : compute_node_activation_tensor_utilization n (some crit)
        BitwidthMode.QMaxBit none = .ok u1)
    (h2 : compute_node_activation_tensor_utilization n (some crit)
        BitwidthMode.QMinBit none = .ok u2) :
    u2.bytes ≤ u1.bytes := by
  unfold compute_node_activation_tensor_utilization at h1 h2
  rw [if_neg (by simp)] at h1
  rw [if_neg (by simp)] at h2
  by_cases hsk : skip_by_criterion (some crit) n = true
  · rw [if_pos hsk] at h1
    rw [if_pos hsk] at h2
    injection h1 with h1
    injection h2 with h2
    rw [← h1, ← h2]
  · rw [if_neg hsk] at h1
    rw [if_neg hsk] at h2
    cases ha1 : get_activation_nbits n BitwidthMode.QMaxBit none with
    | error e => rw [ha1, ebind_err] at h1; exact Except.noConfusion h1
    | ok a1 =>
        cases ha2 : get_activation_nbits n BitwidthMode.QMinBit none with
        | error e => rw [ha2, ebind_err] at h2; exact Except.noConfusion h2
        | ok a2 =>
            rw [ha1, ebind_ok] at h1
            rw [ha2, ebind_ok] at h2
            injection h1 with h1
            injection h2 with h2
            subst h1; subst h2
            have ha : a2 ≤ a1 := act_nbits_mono n ha1 ha2
            show (n.outputSize : ℚ) * a2 / 8 ≤ (n.outputSize : ℚ) * a1 / 8
            have hmul : (n.outputSize : ℚ) * a2 ≤ (n.outputSize : ℚ) * a1 :=
              mul_le_mul_of_nonneg_left (by exact_mod_cast ha) (by positivity)
            linarith

theorem act_entry_mono (crit : TargetInclusionCriterion) (n : BaseNode)
    {p1 p2 : BaseNode × Utilization}
    (h1 : (compute_node_activation_tensor_utilization n (some crit) BitwidthMode.QMaxBit
        none).bind (fun u => Except.ok (n, u)) = .ok p1)
    (h2 : (compute_node_activation_tensor_utilization n (some crit) BitwidthMode.QMinBit
        none).bind (fun u => Except.ok (n, u)) = .ok p2) :
    p2.2.bytes ≤ p1.2.bytes := by
  cases hu1 : compute_node_activation_tensor_utilization n (some crit)
      BitwidthMode.QMaxBit none with
  | error e => rw [hu1, ebind_err] at h1; exact Except.noConfusion h1
  | ok u1 =>
      cases hu2 : compute_node_activation_tensor_utilization n (some crit)
          BitwidthMode.QMinBit none with
      | error e => rw [hu2, ebind_err] at h2; exact Except.noConfusion h2
      | ok u2 =>
          rw [hu1, ebind_ok] at h1
          rw [hu2, ebind_ok] at h2
          injection h1 with h1
          injection h2 with h2
          subst h1; subst h2
          exact act_tensor_util_mono n crit hu1 hu2

theorem process_cut_mono (crit : TargetInclusionCriterion) (cut : List BaseNode)
    {o1 o2 : Option (List BaseNode × Utilization × List (BaseNode × Utilization))}
    (h1 : process_cut crit BitwidthMode.QMaxBit [] cut = .ok o1)
    (h2 : process_cut crit BitwidthMode.QMinBit [] cut = .ok o2) :
    cutRel o1 o2 := by
  simp only [process_cut, alookup] at h1 h2
  by_cases he : (dedupBy (fun n => n) (target_activation_nodes crit true cut)).isEmpty = true
  · rw [if_pos he] at h1
    rw [if_pos he] at h2
    injection h1 with h1
    injection h2 with h2
    subst h1; subst h2
    exact trivial
  · rw [if_neg he] at h1
    rw [if_neg he] at h2
    cases hm1 : mapE (fun n =>
        (compute_node_activation_tensor_utilization n (some crit) BitwidthMode.QMaxBit
          none).bind (fun u => Except.ok (n, u)))
        (dedupBy (fun n => n) (target_activation_nodes crit true cut)) with
    | error e => rw [hm1, ebind_err] at h1; exact Except.noConfusion h1
    | ok per1 =>
        cases hm2 : mapE (fun n =>
            (compute_node_activation_tensor_utilization n (some crit) BitwidthMode.QMinBit
              none).bind (fun u => Except.ok (n, u)))
            (dedupBy (fun n => n) (target_activation_nodes crit true cut)) with
        | error e => rw [hm2, ebind_err] at h2; exact Except.noConfusion h2
        | ok per2 =>
            rw [hm1, ebind_ok] at h1
            rw [hm2, ebind_ok] at h2
            injection h1 with h1
            injection h2 with h2
            subst h1; subst h2
            have hf : List.Forall₂
                (fun p q : BaseNode × Utilization => q.2.bytes ≤ p.2.bytes) per1 per2 :=
              mapE_rel (fun n y z hy hz => act_entry_mono crit n hy hz) hm1 hm2
            show (sumUtil (per2.map Prod.snd)).bytes ≤ (sumUtil (per1.map Prod.snd)).bytes
            exact sumUtil_bytes_mono
              (forall2_map_map (fun p q : BaseNode × Utilization => q.2.bytes ≤ p.2.bytes)
                (fun u v : Utilization => u.bytes ≤ v.bytes) Prod.snd Prod.snd
                (fun p q h => h) hf)

theorem cutRel_filterMap_forall2 :
    ∀ {es1 es2 : List (Option (List BaseNode × Utilization × List (BaseNode × Utilization)))},
      List.Forall₂ cutRel es1 es2 →
      List.Forall₂ (fun u v : Utilization => v.bytes ≤ u.bytes)
        (((es1.filterMap id).map (fun e => (e.1, e.2.1))).map Prod.snd)
        (((es2.filterMap id).map (fun e => (e.1, e.2.1))).map Prod.snd) := by
  intro es1 es2 h
  induction h with
  | nil => exact List.Forall₂.nil
  | cons hxy htail ih =>
      rename_i x y l1 l2
      cases x with
      | none =>
          cases y with
          | none => exact ih
          | some e2 => exact False.elim hxy
      | some e1 =>
          cases y with
          | none => exact False.elim hxy
          | some e2 => exact List.Forall₂.cons hxy ih

theorem maxUtilList_mono {l1 l2 : List Utilization} {t1 t2 : Utilization}
    (hf : List.Forall₂ (fun u v : Utilization => v.bytes ≤ u.bytes) l1 l2)
    (h1 : maxUtilList l1 = .ok t1) (h2 : maxUtilList l2 = .ok t2) :
    t2.bytes ≤ t1.bytes := by
  obtain ⟨hmem2, -⟩ := maxUtilList_ok h2
  obtain ⟨-, hub1⟩ := maxUtilList_ok h1
  obtain ⟨u1, hu1, hle⟩ := forall2_mem_right hf hmem2
  exact le_trans hle (hub1 u1 hu1)

theorem by_cut_mono (g : Graph) (crit : TargetInclusionCriterion)
    {r1 r2 : ℚ × List (List BaseNode × Utilization)
      × List (List BaseNode × List (BaseNode × Utilization))}
    (h1 : compute_activation_utilization_by_cut g crit BitwidthMode.QMaxBit [] = .ok r1)
    (h2 : compute_activation_utilization_by_cut g crit BitwidthMode.QMinBit [] = .ok r2) :
    r2.1 ≤ r1.1 := by
  simp only [compute_activation_utilization_by_cut] at h1 h2
  rw [if_neg (by simp)] at h1
  rw [if_neg (by simp)] at h2
  by_cases hemp : (target_activation_nodes crit true g.nodes).isEmpty = true
  · rw [if_pos hemp] at h1
    rw [if_pos hemp] at h2
    injection h1 with h1
    injection h2 with h2
    subst h1; subst h2
    exact le_refl _
  · rw [if_neg hemp] at h1
    rw [if_neg hemp] at h2
    cases hm1 : mapE (process_cut crit BitwidthMode.QMaxBit [])
        (g.cuts.filter (fun c => !c.isEmpty)) with
    | error e => rw [hm1, ebind_err] at h1; exact Except.noConfusion h1
    | ok es1 =>
        cases hm2 : mapE (process_cut crit BitwidthMode.QMinBit [])
            (g.cuts.filter (fun c => !c.isEmpty)) with
        | error e => rw [hm2, ebind_err] at h2; exact Except.noConfusion h2
        | ok es2 =>
            rw [hm1, ebind_ok] at h1
            rw [hm2, ebind_ok] at h2
            have hf : List.Forall₂ cutRel es1 es2 :=
              mapE_rel (fun cut o1 o2 ho1 ho2 => process_cut_mono crit cut ho1 ho2) hm1 hm2
            have hff := cutRel_filterMap_forall2 hf
            cases hx1 : maxUtilList
                (((es1.filterMap id).map (fun e => (e.1, e.2.1))).map Prod.snd) with
            | error e => rw [hx1, ebind_err] at h1; exact Except.noConfusion h1
            | ok t1 =>
                cases hx2 : maxUtilList
                    (((es2.filterMap id).map (fun e => (e.1, e.2.1))).map Prod.snd) with
                | error e => rw [hx2, ebind_err] at h2; exact Except.noConfusion h2
                | ok t2 =>
                    rw [hx1, ebind_ok] at h1
                    rw [hx2, ebind_ok] at h2
                    injection h1 with h1
                    injection h2 with h2
                    subst h1; subst h2
                    exact maxUtilList_mono hff hx1 hx2

theorem node_bops_mono (g : Graph) (fw : Framework) (n : BaseNode) {b1 b2 : ℕ}
    (h1 : compute_node_bops g fw n BitwidthMode.QMaxBit [] none = .ok b1)
    (h2 : compute_node_bops g fw n BitwidthMode.QMinBit [] none = .ok b2) :
    b2 ≤ b1 := by
  obtain ⟨hz1, hnil1, hone1, hmul1⟩ := compute_node_bops_cases h1
  obtain ⟨hz2, hnil2, hone2, hmul2⟩ := compute_node_bops_cases h2
  by_cases hm : fw.mac n = 0
  · have e1 := hz1 hm
    have e2 := hz2 hm
    omega
  · cases hin : incoming_edges g n with
    | nil =>
        have e1 := hnil1 hin
        have e2 := hnil2 hin
        omega
    | cons e rest =>
        cases rest with
        | nil =>
            obtain ⟨a1, w1, ka1, hka1, ha1, hw1, hb1⟩ := hone1 e hin hm
            obtain ⟨a2, w2, ka2, hka2, ha2, hw2, hb2⟩ := hone2 e hin hm
            rw [hka1] at hka2
            injection hka2 with hka hka2rest
            subst hka
            simp only [alookup] at ha1 ha2
            have ha : a2 ≤ a1 := act_nbits_mono e.source ha1 ha2
            have hw : w2 ≤ w1 := weight_nbits_mono n ka1 hw1 hw2
            rw [hb1, hb2]
            exact Nat.mul_le_mul (Nat.mul_le_mul ha hw) (le_refl _)
        | cons e2 rest2 =>
            refine absurd (hmul1 ?_) hm
            rw [hin]
            simp only [List.length_cons]
            omega

theorem bops_entry_mono (g : Graph) (fw : Framework) (n : BaseNode)
    {p1 p2 : BaseNode × ℕ}
    (h1 : node_bops_entry g fw BitwidthMode.QMaxBit [] [] n = .ok p1)
    (h2 : node_bops_entry g fw BitwidthMode.QMinBit [] [] n = .ok p2) :
    p2.2 ≤ p1.2 := by
  unfold node_bops_entry at h1 h2
  simp only [alookup] at h1 h2
  cases hb1 : compute_node_bops g fw n BitwidthMode.QMaxBit [] none with
  | error e => rw [hb1, ebind_err] at h1; exact Except.noConfusion h1
  | ok b1 =>
      cases hb2 : compute_node_bops g fw n BitwidthMode.QMinBit [] none with
      | error e => rw [hb2, ebind_err] at h2; exact Except.noConfusion h2
      | ok b2 =>
          rw [hb1, ebind_ok] at h1
          rw [hb2, ebind_ok] at h2
          injection h1 with h1
          injection h2 with h2
          subst h1; subst h2
          exact node_bops_mono g fw n hb1 hb2

theorem bops_mono (g : Graph) (fw : Framework) (crit : TargetInclusionCriterion)
    {r1 r2 : ℕ × List (BaseNode × ℕ)}
    (h1 : compute_bops g fw crit BitwidthMode.QMaxBit [] [] = .ok r1)
    (h2 : compute_bops g fw crit BitwidthMode.QMinBit [] [] = .ok r2) :
    r2.1 ≤ r1.1 := by
  unfold compute_bops at h1 h2
  by_cases hc : crit = TargetInclusionCriterion.AnyQuantized
  · subst hc
    rw [if_neg (by simp)] at h1
    rw [if_neg (by simp)] at h2
    cases hm1 : mapE (node_bops_entry g fw BitwidthMode.QMaxBit [] [])
        (((collect_target_nodes_w_attrs g TargetInclusionCriterion.AnyQuantized true).map
          Prod.fst).filter (fun n => has_kernel_weight_to_quantize fw n)) with
    | error e => rw [hm1, ebind_err] at h1; exact Except.noConfusion h1
    | ok per1 =>
        cases hm2 : mapE (node_bops_entry g fw BitwidthMode.QMinBit [] [])
            (((collect_target_nodes_w_attrs g TargetInclusionCriterion.AnyQuantized true).map
              Prod.fst).filter (fun n => has_kernel_weight_to_quantize fw n)) with
        | error e => rw [hm2, ebind_err] at h2; exact Except.noConfusion h2
        | ok per2 =>
            rw [hm1, ebind_ok] at h1
            rw [hm2, ebind_ok] at h2
            injection h1 with h1
            injection h2 with h2
            subst h1; subst h2
            have hf : List.Forall₂ (fun p q : BaseNode × ℕ => q.2 ≤ p.2) per1 per2 :=
              mapE_rel (fun n y z hy hz => bops_entry_mono g fw n hy hz) hm1 hm2
            show (per2.map Prod.snd).sum ≤ (per1.map Prod.snd).sum
            exact nat_sum_le_of_forall2
              (forall2_map_map (fun p q : BaseNode × ℕ => q.2 ≤ p.2)
                (fun x y : ℕ => x ≤ y) Prod.snd Prod.snd (fun p q h => h) hf)
  · rw [if_pos hc] at h1
    exact Except.noConfusion h1

/-- **C7**: monotonicity in bit-width — for every graph, framework and target
criterion on which both modes succeed, the total weights bytes, the peak
activation bytes and the total BOPS computed at `QMaxBit` are greater than or
equal to those computed at `QMinBit`. -/
theorem qmax_qmin_monotonicity (g : Graph) (fw : Framework)
    (crit : TargetInclusionCriterion) :
    (∀ r1 r2, compute_weights_utilization g crit BitwidthMode.QMaxBit [] = .ok r1 →
      compute_weights_utilization g crit BitwidthMode.QMinBit [] = .ok r2 →
      r2.1 ≤ r1.1) ∧
    (∀ r1 r2, compute_activation_utilization_by_cut g crit BitwidthMode.QMaxBit [] = .ok r1 →
      compute_activation_utilization_by_cut g crit BitwidthMode.QMinBit [] = .ok r2 →
      r2.1 ≤ r1.1) ∧
    (∀ r1 r2, compute_bops g fw crit BitwidthMode.QMaxBit [] [] = .ok r1 →
      compute_bops g fw crit BitwidthMode.QMinBit [] [] = .ok r2 →
      r2.1 ≤ r1.1) :=
  ⟨fun _ _ h1 h2 => weights_util_mono g crit h1 h2,
   fun _ _ h1 h2 => by_cut_mono g crit h1 h2,
   fun _ _ h1 h2 => bops_mono g fw crit h1 h2⟩

theorem gMP_weights_max : compute_weights_utilization gMP
    TargetInclusionCriterion.AnyQuantized BitwidthMode.QMaxBit [] =
    .ok (4, [(mNode, ⟨4, 4⟩)], [(mNode, [("k", ⟨4, 4⟩)])]) := by
  have hcol : collect_target_nodes_w_attrs gMP TargetInclusionCriterion.AnyQuantized false =
      [(mNode, ["k"])] := by decide
  have htopo : topo_sort gMP [mNode] = .ok [mNode] := by decide
  have hnb : get_weight_nbits mNode "k" BitwidthMode.QMaxBit none = .ok 8 := by decide
  unfold compute_weights_utilization
  rw [if_neg (by simp), hcol]
  simp only [List.map_cons, List.map_nil]
  rw [htopo, ebind_ok]
  simp [mapE, node_weights_entry, compute_node_weights_utilization, check_w_qc,
    resolve_weight_attrs, node_weight_attr_util, alookup, hnb, sumUtil, Utilization.add,
    ebind_ok, ebind_err, except_bind_ok, except_bind_err, pure_bind]

theorem gMP_weights_min : compute_weights_utilization gMP
    TargetInclusionCriterion.AnyQuantized BitwidthMode.QMinBit [] =
    .ok (2, [(mNode, ⟨4, 2⟩)], [(mNode, [("k", ⟨4, 2⟩)])]) := by
  have hcol : collect_target_nodes_w_attrs gMP TargetInclusionCriterion.AnyQuantized false =
      [(mNode, ["k"])] := by decide
  have htopo : topo_sort gMP [mNode] = .ok [mNode] := by decide
  have hnb : get_weight_nbits mNode "k" BitwidthMode.QMinBit none = .ok 4 := by decide
  unfold compute_weights_utilization
  rw [if_neg (by simp), hcol]
  simp only [List.map_cons, List.map_nil]
  rw [htopo, ebind_ok]
  simp [mapE, node_weights_entry, compute_node_weights_utilization, check_w_qc,
    resolve_weight_attrs, node_weight_attr_util, alookup, hnb, sumUtil, Utilization.add,
    ebind_ok, ebind_err, except_bind_ok, except_bind_err, pure_bind]
  norm_num

theorem gMP_bycut_max : compute_activation_utilization_by_cut gMP
    TargetInclusionCriterion.AnyQuantized BitwidthMode.QMaxBit [] =
    .ok (16, [([iNode], ⟨8, 8⟩), ([iNode, mNode], ⟨16, 16⟩)],
      [([iNode], [(iNode, ⟨8, 8⟩)]),
       ([iNode, mNode], [(iNode, ⟨8, 8⟩), (mNode, ⟨8, 8⟩)])]) := by
  have hded1 : dedupBy (fun n => n)
      (target_activation_nodes TargetInclusionCriterion.AnyQuantized true [iNode]) =
      [iNode] := by decide
  have hded2 : dedupBy (fun n => n)
      (target_activation_nodes TargetInclusionCriterion.AnyQuantized true [iNode, mNode]) =
      [iNode, mNode] := by decide
  have hskipi : skip_by_criterion (some TargetInclusionCriterion.AnyQuantized) iNode =
      false := by decide
  have hskipm : skip_by_criterion (some TargetInclusionCriterion.AnyQuantized) mNode =
      false := by decide
  have hgai : get_activation_nbits iNode BitwidthMode.QMaxBit none = .ok 8 := by decide
  have hgam : get_activation_nbits mNode BitwidthMode.QMaxBit none = .ok 8 := by decide
  have hpc1 : process_cut TargetInclusionCriterion.AnyQuantized BitwidthMode.QMaxBit []
      [iNode] = .ok (some ([iNode], ⟨8, 8⟩, [(iNode, ⟨8, 8⟩)])) := by
    unfold process_cut
    rw [hded1]
    simp [compute_node_activation_tensor_utilization, hskipi, hgai, alookup, mapE, sumUtil,
      Utilization.add, ebind_ok, except_bind_ok, except_bind_err, pure_bind]
    norm_num [iNode]
  have hpc2 : process_cut TargetInclusionCriterion.AnyQuantized BitwidthMode.QMaxBit []
      [iNode, mNode] =
      .ok (some ([iNode, mNode], ⟨16, 16⟩, [(iNode, ⟨8, 8⟩), (mNode, ⟨8, 8⟩)])) := by
    unfold process_cut
    rw [hded2]
    simp [compute_node_activation_tensor_utilization, hskipi, hskipm, hgai, hgam, alookup,
      mapE, sumUtil, Utilization.add, ebind_ok, except_bind_ok, except_bind_err, pure_bind]
    norm_num [iNode, mNode]
  have hflt : gMP.cuts.filter (fun c => !c.isEmpty) = [[iNode], [iNode, mNode]] := by decide
  unfold compute_activation_utilization_by_cut
  rw [if_neg (by simp), if_neg (by decide), hflt]
  simp [mapE, hpc1, hpc2, ebind_ok, except_bind_ok, except_bind_err, pure_bind, maxUtilList]
  norm_num

theorem gMP_bycut_min : compute_activation_utilization_by_cut gMP
    TargetInclusionCriterion.AnyQuantized BitwidthMode.QMinBit [] =
    .ok (12, [([iNode], ⟨8, 8⟩), ([iNode, mNode], ⟨16, 12⟩)],
      [([iNode], [(iNode, ⟨8, 8⟩)]),
       ([iNode, mNode], [(iNode, ⟨8, 8⟩), (mNode, ⟨8, 4⟩)])]) := by
  have hded1 : dedupBy (fun n => n)
      (target_activation_nodes TargetInclusionCriterion.AnyQuantized true [iNode]) =
      [iNode] := by decide
  have hded2 : dedupBy (fun n => n)
      (target_activation_nodes TargetInclusionCriterion.AnyQuantized true [iNode, mNode]) =
      [iNode, mNode] := by decide
  have hskipi : skip_by_criterion (some TargetInclusionCriterion.AnyQuantized) iNode =
      false := by decide
  have hskipm : skip_by_criterion (some TargetInclusionCriterion.AnyQuantized) mNode =
      false := by decide
  have hgai : get_activation_nbits iNode BitwidthMode.QMinBit none = .ok 8 := by decide
  have hgam : get_activation_nbits mNode BitwidthMode.QMinBit none = .ok 4 := by decide
  have hpc1 : process_cut TargetInclusionCriterion.AnyQuantized BitwidthMode.QMinBit []
      [iNode] = .ok (some ([iNode], ⟨8, 8⟩, [(iNode, ⟨8, 8⟩)])) := by
    unfold process_cut
    rw [hded1]
    simp [compute_node_activation_tensor_utilization, hskipi, hgai, alookup, mapE, sumUtil,
      Utilization.add, ebind_ok, except_bind_ok, except_bind_err, pure_bind]
    norm_num [iNode]
  have hpc2 : process_cut TargetInclusionCriterion.AnyQuantized BitwidthMode.QMinBit []
      [iNode, mNode] =
      .ok (some ([iNode, mNode], ⟨16, 12⟩, [(iNode, ⟨8, 8⟩), (mNode, ⟨8, 4⟩)])) := by
    unfold process_cut
    rw [hded2]
    simp [compute_node_activation_tensor_utilization, hskipi, hskipm, hgai, hgam, alookup,
      mapE, sumUtil, Utilization.add, ebind_ok, except_bind_ok, except_bind_err, pure_bind]
    norm_num [iNode, mNode]
  have hflt : gMP.cuts.filter (fun c => !c.isEmpty) = [[iNode], [iNode, mNode]] := by decide
  unfold compute_activation_utilization_by_cut
  rw [if_neg (by simp), if_neg (by decide), hflt]
  simp [mapE, hpc1, hpc2, ebind_ok, except_bind_ok, except_bind_err, pure_bind, maxUtilList]
  norm_num

theorem gMP_bops_max : compute_bops gMP fwMP TargetInclusionCriterion.AnyQuantized
    BitwidthMode.QMaxBit [] [] = .ok (128, [(mNode, 128)]) := by decide

theorem gMP_bops_min : compute_bops gMP fwMP TargetInclusionCriterion.AnyQuantized
    BitwidthMode.QMinBit [] [] = .ok (64, [(mNode, 64)]) := by decide

/-- Witness for C7: at the two-candidate mixed-precision graph, QMaxBit gives
weights bytes 4, activation peak 16 and BOPS 128, QMinBit gives 2, 12 and 64,
and the theorem yields 2 ≤ 4, 12 ≤ 16 and 64 ≤ 128. -/
theorem qmax_qmin_monotonicity_witness :
    compute_weights_utilization gMP TargetInclusionCriterion.AnyQuantized
      BitwidthMode.QMaxBit [] = .ok (4, [(mNode, ⟨4, 4⟩)], [(mNode, [("k", ⟨4, 4⟩)])]) ∧
    compute_weights_utilization gMP TargetInclusionCriterion.AnyQuantized
      BitwidthMode.QMinBit [] = .ok (2, [(mNode, ⟨4, 2⟩)], [(mNode, [("k", ⟨4, 2⟩)])]) ∧
    compute_bops gMP fwMP TargetInclusionCriterion.AnyQuantized
      BitwidthMode.QMaxBit [] [] = .ok (128, [(mNode, 128)]) ∧
    compute_bops gMP fwMP TargetInclusionCriterion.AnyQuantized
      BitwidthMode.QMinBit [] [] = .ok (64, [(mNode, 64)]) ∧
    ((2 : ℚ) ≤ 4 ∧ (12 : ℚ) ≤ 16 ∧ (64 : ℕ) ≤ 128) :=
  ⟨gMP_weights_max, gMP_weights_min, gMP_bops_max, gMP_bops_min,
   (qmax_qmin_monotonicity gMP fwMP TargetInclusionCriterion.AnyQuantized).1 _ _
     gMP_weights_max gMP_weights_min,
   (qmax_qmin_monotonicity gMP fwMP TargetInclusionCriterion.AnyQuantized).2.1 _ _
     gMP_bycut_max gMP_bycut_min,
   (qmax_qmin_monotonicity gMP fwMP TargetInclusionCriterion.AnyQuantized).2.2 _ _
     gMP_bops_max gMP_bops_min⟩

/-! ### C1: peak activation equals the max over cuts of per-cut totals -/

theorem tan_nil (crit : TargetInclusionCriterion) :
    target_activation_nodes crit true [] = [] := by
  cases crit <;> rfl

theorem tan_sub (crit : TargetInclusionCriterion) {l : List BaseNode} {n : BaseNode}
    (h : n ∈ target_activation_nodes crit true l) : n ∈ l := by
  unfold target_activation_nodes at h
  cases crit <;> simp_all [List.mem_filter]

theorem tan_mem_mono (crit : TargetInclusionCriterion) {l1 l2 : List BaseNode} {n : BaseNode}
    (h1 : n ∈ target_activation_nodes crit true l1) (h2 : n ∈ l2) :
    n ∈ target_activation_nodes crit true l2 := by
  unfold target_activation_nodes at h1 ⊢
  cases crit <;> simp_all [List.mem_filter]

theorem skip_false_of_selected (crit : TargetInclusionCriterion) (cut : List BaseNode)
    (n : BaseNode) (hn : n ∈ target_activation_nodes crit true cut) :
    skip_by_criterion (some crit) n = false := by
  have hmem : n ∈ target_activation_nodes crit true [n] :=
    tan_mem_mono crit hn (List.mem_singleton_self n)
  simp only [skip_by_criterion]
  cases htn : target_activation_nodes crit true [n] with
  | nil => rw [htn] at hmem; cases hmem
  | cons x xs => rfl

theorem cut_total_no_targets (crit : TargetInclusionCriterion) (mode : BitwidthMode)
    (act_qcs : List (BaseNode × QCfg)) (cut : List BaseNode)
    (h : target_activation_nodes crit true cut = []) :
    cut_total crit mode act_qcs cut = .ok 0 := by
  unfold cut_total
  rw [h]
  rfl

theorem forall2_imp_mem {a b c : Type} {R : a → b → Prop} {S : a → c → Prop} {v : b → c} :
    ∀ {l : List a} {ys : List b}, List.Forall₂ R l ys →
      (∀ x ∈ l, ∀ y, R x y → S x (v y)) →
      List.Forall₂ S l (ys.map v) := by
  intro l ys h
  induction h with
  | nil => intro himp; exact List.Forall₂.nil
  | cons hxy htail ih =>
      intro himp
      simp only [List.map_cons]
      exact List.Forall₂.cons (himp _ (List.mem_cons_self _ _) _ hxy)
        (ih fun x hx y hy => himp x (List.mem_cons_of_mem _ hx) y hy)

theorem forall2_map_of_forall {a b : Type} {f : a → Except RUErr b} {v : a → b}
    (l : List a) (h : ∀ x ∈ l, f x = .ok (v x)) :
    List.Forall₂ (fun x y => f x = .ok y) l (l.map v) := by
  induction l with
  | nil => exact List.Forall₂.nil
  | cons x xs ih =>
      simp only [List.map_cons]
      exact List.Forall₂.cons (h x (List.mem_cons_self _ _))
        (ih fun y hy => h y (List.mem_cons_of_mem _ hy))

theorem mapE_isOk_of_forall {a b : Type} {f : a → Except RUErr b} :
    ∀ {l : List a}, (∀ x ∈ l, ∃ y, f x = .ok y) → ∃ ys, mapE f l = .ok ys := by
  intro l
  induction l with
  | nil => exact fun _ => ⟨[], rfl⟩
  | cons x xs ih =>
      intro h
      obtain ⟨y, hy⟩ := h x (List.mem_cons_self _ _)
      obtain ⟨ys, hys⟩ := ih (fun z hz => h z (List.mem_cons_of_mem _ hz))
      exact ⟨y :: ys, by simp only [mapE]; rw [hy, except_bind_ok, hys, except_bind_ok]⟩

theorem foldr_max_map_zero (l : List (List BaseNode)) :
    ((l.map (fun _ => (0 : ℚ))).foldr max 0) = 0 := by
  induction l with
  | nil => rfl
  | cons x xs ih =>
      simp only [List.map_cons, List.foldr_cons]
      rw [ih]
      exact max_self 0

theorem process_cut_total (crit : TargetInclusionCriterion) (mode : BitwidthMode)
    (act_qcs : List (BaseNode × QCfg)) (cut : List BaseNode)
    {o : Option (List BaseNode × Utilization × List (BaseNode × Utilization))}
    (hq : act_qcs = [] ∨ mode = BitwidthMode.QCustom)
    (h : process_cut crit mode act_qcs cut = .ok o) :
    (o = none → cut_total crit mode act_qcs cut = .ok 0) ∧
    (∀ e, o = some e → cut_total crit mode act_qcs cut = .ok e.2.1.bytes ∧
      0 ≤ e.2.1.bytes) := by
  simp only [process_cut] at h
  by_cases hsel :
      (dedupBy (fun n => n) (target_activation_nodes crit true cut)).isEmpty = true
  · rw [if_pos hsel] at h
    injection h with h
    subst h
    constructor
    · intro _
      have hnil : dedupBy (fun n => n) (target_activation_nodes crit true cut) = [] := by
        cases hd : dedupBy (fun n => n) (target_activation_nodes crit true cut) with
        | nil => rfl
        | cons x xs => rw [hd] at hsel; exact absurd hsel (by simp)
      unfold cut_total
      rw [hnil]
      rfl
    · intro e he
      exact Option.noConfusion he
  · rw [if_neg hsel] at h
    cases hmE : mapE (fun n =>
        (compute_node_activation_tensor_utilization n (some crit) mode
          (alookup act_qcs n)).bind (fun u => Except.ok (n, u)))
        (dedupBy (fun n => n) (target_activation_nodes crit true cut)) with
    | error e2 => rw [hmE, ebind_err] at h; exact Except.noConfusion h
    | ok per =>
        rw [hmE, ebind_ok] at h
        injection h with h
        subst h
        have hF := mapE_ok_forall2 _ hmE
        have hS : List.Forall₂
            (fun n y => ((get_activation_nbits n mode (alookup act_qcs n)) >>=
              (fun nb => Except.ok ((n.outputSize : ℚ) * nb / 8)) = Except.ok y) ∧ 0 ≤ y)
            (dedupBy (fun n => n) (target_activation_nodes crit true cut))
            (per.map (fun p => p.2.bytes)) := by
          refine forall2_imp_mem hF ?_
          intro x hx p hp
          have hskip : skip_by_criterion (some crit) x = false :=
            skip_false_of_selected crit cut x (dedupBy_sub _ _ x hx)
          have hc1 : ¬((alookup act_qcs x).isSome = true ∧ mode ≠ BitwidthMode.QCustom) := by
            rcases hq with hq | hq
            · subst hq; simp [alookup]
            · subst hq; simp
          cases hu : compute_node_activation_tensor_utilization x (some crit) mode
              (alookup act_qcs x) with
          | error e2 => rw [hu, ebind_err] at hp; exact Except.noConfusion hp
          | ok u =>
              rw [hu, ebind_ok] at hp
              injection hp with hp
              subst hp
              unfold compute_node_activation_tensor_utilization at hu
              rw [if_neg hc1, if_neg (by simp [hskip])] at hu
              cases hnb : get_activation_nbits x mode (alookup act_qcs x) with
              | error e2 => rw [hnb, ebind_err] at hu; exact Except.noConfusion hu
              | ok nb =>
                  rw [hnb, ebind_ok] at hu
                  injection hu with hu
                  subst hu
                  constructor
                  · rfl
                  · show (0 : ℚ) ≤ (x.outputSize : ℚ) * nb / 8
                    positivity
        have hGm : mapE (fun n => (get_activation_nbits n mode (alookup act_qcs n)) >>=
            (fun nb => Except.ok ((n.outputSize : ℚ) * nb / 8)))
            (dedupBy (fun n => n) (target_activation_nodes crit true cut)) =
            .ok (per.map (fun p => p.2.bytes)) :=
          forall2_mapE _ (hS.imp (fun a b hab => hab.1))
        have hsum : (sumUtil (per.map Prod.snd)).bytes =
            (per.map (fun p => p.2.bytes)).sum := by
          rw [sumUtil_bytes, List.map_map]
          rfl
        constructor
        · intro hno; exact Option.noConfusion hno
        · intro e he
          injection he with he
          subst he
          constructor
          · show cut_total crit mode act_qcs cut = .ok ((sumUtil (per.map Prod.snd)).bytes)
            simp only [cut_total]
            rw [hGm, except_bind_ok, hsum]
          · show (0 : ℚ) ≤ (sumUtil (per.map Prod.snd)).bytes
            apply sumUtil_bytes_nonneg
            intro u hu
            obtain ⟨p, hpmem, hpu⟩ := List.mem_map.mp hu
            obtain ⟨x, hxmem, hcond⟩ := forall2_mem_right hS
              (List.mem_map_of_mem (fun p => p.2.bytes) hpmem)
            rw [← hpu]
            exact hcond.2

/-- **C1**: for every graph whose cuts consist of graph nodes, criterion,
mode and activation config on which the computation succeeds, the returned
peak equals the maximum over all of the graph's cuts of the per-cut total
(the sum over the cut's selected target activation nodes of
`output_element_count × effective_nbits / 8`), and no cut's total exceeds
the peak. -/
theorem peak_activation_is_max_over_cuts (g : Graph) (crit : TargetInclusionCriterion)
    (mode : BitwidthMode) (act_qcs : List (BaseNode × QCfg))
    (hcuts : ∀ c ∈ g.cuts, ∀ n ∈ c, n ∈ g.nodes)
    {peak : ℚ} {pc : List (List BaseNode × Utilization)}
    {pcn : List (List BaseNode × List (BaseNode × Utilization))}
    (h : compute_activation_utilization_by_cut g crit mode act_qcs = .ok (peak, pc, pcn)) :
    ∃ totals, mapE (cut_total crit mode act_qcs) g.cuts = .ok totals ∧
      peak = totals.foldr max 0 ∧ ∀ t ∈ totals, t ≤ peak := by
  have hq : act_qcs = [] ∨ mode = BitwidthMode.QCustom := by
    by_cases hcnd : ¬act_qcs.isEmpty = true ∧ mode ≠ BitwidthMode.QCustom
    · exfalso
      unfold compute_activation_utilization_by_cut at h
      rw [if_pos hcnd] at h
      exact Except.noConfusion h
    · rcases not_and_or.mp hcnd with h1 | h2
      · have h1b := not_not.mp h1
        cases act_qcs with
        | nil => exact Or.inl rfl
        | cons a l => exact absurd h1b (by simp)
      · exact Or.inr (not_not.mp h2)
  have hc0 : ¬(¬act_qcs.isEmpty = true ∧ mode ≠ BitwidthMode.QCustom) := by
    rcases hq with hq | hq
    · subst hq; simp
    · subst hq; simp
  simp only [compute_activation_utilization_by_cut] at h
  rw [if_neg hc0] at h
  by_cases hemp : (target_activation_nodes crit true g.nodes).isEmpty = true
  · rw [if_pos hemp] at h
    injection h with h
    simp only [Prod.mk.injEq] at h
    obtain ⟨h0, -, -⟩ := h
    have hgnil : target_activation_nodes crit true g.nodes = [] := by
      cases hg : target_activation_nodes crit true g.nodes with
      | nil => rfl
      | cons x xs => rw [hg] at hemp; exact absurd hemp (by simp)
    have htn : ∀ c ∈ g.cuts, target_activation_nodes crit true c = [] := by
      intro c hc
      cases htc : target_activation_nodes crit true c with
      | nil => rfl
      | cons x xs =>
          exfalso
          have hx : x ∈ target_activation_nodes crit true c := by
            rw [htc]; exact List.mem_cons_self _ _
          have hxg := tan_mem_mono crit hx (hcuts c hc x (tan_sub crit hx))
          rw [hgnil] at hxg
          cases hxg
    have hok : ∀ c ∈ g.cuts, cut_total crit mode act_qcs c = .ok 0 :=
      fun c hc => cut_total_no_targets crit mode act_qcs c (htn c hc)
    refine ⟨g.cuts.map (fun _ => (0 : ℚ)), ?_, ?_, ?_⟩
    · exact forall2_mapE _ (forall2_map_of_forall g.cuts hok)
    · rw [foldr_max_map_zero]
      exact h0.symm
    · intro t ht
      obtain ⟨c, -, htv⟩ := List.mem_map.mp ht
      rw [← htv, ← h0]
  · rw [if_neg hemp] at h
    cases hm : mapE (process_cut crit mode act_qcs)
        (g.cuts.filter (fun c => !c.isEmpty)) with
    | error e => rw [hm, ebind_err] at h; exact Except.noConfusion h
    | ok es =>
        rw [hm, ebind_ok] at h
        cases hx : maxUtilList
            (((es.filterMap id).map (fun e => (e.1, e.2.1))).map Prod.snd) with
        | error e => rw [hx, ebind_err] at h; exact Except.noConfusion h
        | ok t =>
            rw [hx, ebind_ok] at h
            injection h with h
            simp only [Prod.mk.injEq] at h
            obtain ⟨hpk, -, -⟩ := h
            have hFcuts := mapE_ok_forall2 _ hm
            obtain ⟨htmem, htub⟩ := maxUtilList_ok hx
            obtain ⟨pair0, hpair0, hpt⟩ := List.mem_map.mp htmem
            obtain ⟨e0, he0, hpair⟩ := List.mem_map.mp hpair0
            have he0es : some e0 ∈ es := by
              obtain ⟨o, ho, hoe⟩ := List.mem_filterMap.mp he0
              have hoo : o = some e0 := hoe
              rw [← hoo]
              exact ho
            obtain ⟨c0, hc0f, hpc0⟩ := forall2_mem_right hFcuts he0es
            have hP0 := (process_cut_total crit mode act_qcs c0 hq hpc0).2 e0 rfl
            have htb : e0.2.1 = t := by
              rw [← hpt, ← hpair]
            have ht0 : 0 ≤ t.bytes := by
              rw [← htb]
              exact hP0.2
            have hattain : cut_total crit mode act_qcs c0 = .ok t.bytes := by
              rw [← htb]
              exact hP0.1
            have hc0g : c0 ∈ g.cuts := List.mem_of_mem_filter hc0f
            have hA : ∀ c ∈ g.cuts, ∃ b,
                cut_total crit mode act_qcs c = .ok b ∧ b ≤ t.bytes := by
              intro c hc
              by_cases hce : c.isEmpty = true
              · have hcnil : c = [] := by
                  cases c with
                  | nil => rfl
                  | cons x xs => exact absurd hce (by simp)
                refine ⟨0, ?_, ht0⟩
                rw [hcnil]
                exact cut_total_no_targets crit mode act_qcs [] (tan_nil crit)
              · have hcf : c ∈ g.cuts.filter (fun c => !c.isEmpty) :=
                  List.mem_filter.mpr ⟨hc, by simp at hce ⊢; exact hce⟩
                obtain ⟨o, hoes, hpo⟩ := forall2_mem_left hFcuts hcf
                have hP := process_cut_total crit mode act_qcs c hq hpo
                cases o with
                | none => exact ⟨0, hP.1 rfl, ht0⟩
                | some e =>
                    refine ⟨e.2.1.bytes, (hP.2 e rfl).1, ?_⟩
                    have hein : e ∈ es.filterMap id :=
                      List.mem_filterMap.mpr ⟨some e, hoes, rfl⟩
                    have hin1 : (e.1, e.2.1) ∈ (es.filterMap id).map
                        (fun x => (x.1, x.2.1)) :=
                      List.mem_map_of_mem _ hein
                    exact htub _ (List.mem_map_of_mem Prod.snd hin1)
            obtain ⟨totals, htot⟩ :=
              mapE_isOk_of_forall (fun c hc => (hA c hc).imp (fun b hb => hb.1))
            have htotF := mapE_ok_forall2 _ htot
            have hub2 : ∀ b ∈ totals, b ≤ t.bytes := by
              intro b hb
              obtain ⟨c, hcg, hcb⟩ := forall2_mem_right htotF hb
              obtain ⟨b2, hb2, hb2le⟩ := hA c hcg
              rw [hcb] at hb2
              injection hb2 with hb2
              rw [hb2]
              exact hb2le
            have hmemt : t.bytes ∈ totals := by
              obtain ⟨b, hbmem, hbeq⟩ := forall2_mem_left htotF hc0g
              rw [hattain] at hbeq
              injection hbeq with hbeq
              rw [hbeq]
              exact hbmem
            refine ⟨totals, htot, ?_, ?_⟩
            · rw [← hpk]
              exact (foldr_max_zero_spec hmemt hub2 ht0).symm
            · intro tt htt
              rw [← hpk]
              exact hub2 tt htt

/-- Witness for C1: at the single-node graph, the peak of 4 bytes equals the
max of the per-cut totals and bounds each of them. -/
theorem peak_activation_is_max_over_cuts_witness :
    (∀ c ∈ gW.cuts, ∀ n ∈ c, n ∈ gW.nodes) ∧
    (∃ totals, mapE (cut_total TargetInclusionCriterion.AnyQuantized BitwidthMode.Q8Bit [])
        gW.cuts = .ok totals ∧ (4 : ℚ) = totals.foldr max 0 ∧ ∀ t ∈ totals, t ≤ 4) :=
  ⟨by decide,
   peak_activation_is_max_over_cuts gW TargetInclusionCriterion.AnyQuantized
     BitwidthMode.Q8Bit [] (by decide) gW_bycut⟩

end RUC
